import Mathlib

/-!
# Verification of the ACM extraction pipeline

Shallow embedding of the ACM (Asbestos Containing Material) extraction
pipeline: the pattern-based markdown table parser
(`open_notebook/extractors/acm_extractor.py`), the AI extraction workflow
(`open_notebook/graphs/acm_extraction.py`) and its schemas
(`open_notebook/extractors/acm_schemas.py`).

Python strings are modelled as Lean `String` (Python indexes by code point,
matching `List Char`), Python `int` as `Nat`/`Int`, `float` temperatures as
`ℚ`, `Optional[T]` as `Option T`.  External collaborators (the LLM call, the
persistence adapter, the token estimator `open_notebook.utils.token_count`)
are modelled as explicit parameters of the embedded functions.
-/

set_option autoImplicit false

namespace AcmAI

/-! ## Python string primitives -/

/-- Python `str.isspace` characters relevant here (ASCII whitespace). -/
def pyIsSpace (c : Char) : Bool :=
  c = ' ' || c = '\t' || c = '\n' || c = '\r' || c = '\x0b' || c = '\x0c'

def pyStripList (l : List Char) : List Char :=
  ((l.dropWhile pyIsSpace).reverse.dropWhile pyIsSpace).reverse

/-- Python `str.strip()`. -/
def pyStrip (s : String) : String := ⟨pyStripList s.data⟩

def startsWithL : List Char → List Char → Bool
  | [], _ => true
  | _ :: _, [] => false
  | a :: pat, b :: l => a = b && startsWithL pat l

def containsAux (pat : List Char) : List Char → Bool
  | [] => pat.isEmpty
  | c :: cs => startsWithL pat (c :: cs) || containsAux pat cs

/-- Python `sub in s` (substring containment). -/
def containsStr (s pat : String) : Bool := containsAux pat.data s.data

/-- Python `str.lower()` (ASCII case mapping, which is all the pipeline
compares); kernel-reducible unlike `String.toLower`. -/
def pyLower (s : String) : String := ⟨s.data.map Char.toLower⟩

/-- Python `str.split(sep)` for a one-character separator (keeps empties). -/
def pySplitChar (sep : Char) : List Char → List Char → List String
  | [], acc => [⟨acc.reverse⟩]
  | c :: cs, acc =>
    if c = sep then (⟨acc.reverse⟩ : String) :: pySplitChar sep cs []
    else pySplitChar sep cs (c :: acc)

/-- `line.split("|")`. -/
def pySplitPipe (s : String) : List String := pySplitChar '|' s.data []

/-! ## SHA-256 (Python `hashlib.sha256`), over byte lists -/

def u32 (n : Nat) : Nat := n % 4294967296

def rotr32 (k x : Nat) : Nat := u32 ((x >>> k) ||| (x <<< (32 - k)))

def bigSigma0 (x : Nat) : Nat := (rotr32 2 x) ^^^ (rotr32 13 x) ^^^ (rotr32 22 x)

def bigSigma1 (x : Nat) : Nat := (rotr32 6 x) ^^^ (rotr32 11 x) ^^^ (rotr32 25 x)

def smallSigma0 (x : Nat) : Nat := (rotr32 7 x) ^^^ (rotr32 18 x) ^^^ (x >>> 3)

def smallSigma1 (x : Nat) : Nat := (rotr32 17 x) ^^^ (rotr32 19 x) ^^^ (x >>> 10)

def shaK : List Nat :=
  [1116352408, 1899447441, 3049323471, 3921009573, 961987163, 1508970993,
   2453635748, 2870763221, 3624381080, 310598401, 607225278, 1426881987,
   1925078388, 2162078206, 2614888103, 3248222580, 3835390401, 4022224774,
   264347078, 604807628, 770255983, 1249150122, 1555081692, 1996064986,
   2554220882, 2821834349, 2952996808, 3210313671, 3336571891, 3584528711,
   113926993, 338241895, 666307205, 773529912, 1294757372, 1396182291,
   1695183700, 1986661051, 2177026350, 2456956037, 2730485921, 2820302411,
   3259730800, 3345764771, 3516065817, 3600352804, 4094571909, 275423344,
   430227734, 506948616, 659060556, 883997877, 958139571, 1322822218,
   1537002063, 1747873779, 1955562222, 2024104815, 2227730452, 2361852424,
   2428436474, 2756734187, 3204031479, 3329325298]

structure Sha256St where
  a : Nat
  b : Nat
  c : Nat
  d : Nat
  e : Nat
  f : Nat
  g : Nat
  h : Nat

def shaInit : Sha256St :=
  ⟨1779033703, 3144134277, 1013904242, 2773480762,
   1359893119, 2600822924, 528734635, 1541459225⟩

def shaRound (st : Sha256St) (kw : Nat × Nat) : Sha256St :=
  let ch := (st.e &&& st.f) ^^^ ((st.e ^^^ 4294967295) &&& st.g)
  let maj := (st.a &&& st.b) ^^^ (st.a &&& st.c) ^^^ (st.b &&& st.c)
  let t1 := u32 (st.h + bigSigma1 st.e + ch + kw.1 + kw.2)
  let t2 := u32 (bigSigma0 st.a + maj)
  ⟨u32 (t1 + t2), st.a, st.b, st.c, u32 (st.d + t1), st.e, st.f, st.g⟩

/-- Message-schedule extension, most recent word first. -/
def scheduleRev : Nat → List Nat → List Nat
  | 0, acc => acc
  | n + 1, acc =>
    let w := u32 (smallSigma1 (acc.getD 1 0) + acc.getD 6 0 +
                  smallSigma0 (acc.getD 14 0) + acc.getD 15 0)
    scheduleRev n (w :: acc)

def blockWords (block : List Nat) : List Nat :=
  (List.range 16).map fun i =>
    block.getD (4 * i) 0 * 16777216 + block.getD (4 * i + 1) 0 * 65536 +
    block.getD (4 * i + 2) 0 * 256 + block.getD (4 * i + 3) 0

def shaCompress (st : Sha256St) (block : List Nat) : Sha256St :=
  let ws := (scheduleRev 48 (blockWords block).reverse).reverse
  let r := (shaK.zip ws).foldl shaRound st
  ⟨u32 (st.a + r.a), u32 (st.b + r.b), u32 (st.c + r.c), u32 (st.d + r.d),
   u32 (st.e + r.e), u32 (st.f + r.f), u32 (st.g + r.g), u32 (st.h + r.h)⟩

def shaPad (msg : List Nat) : List Nat :=
  let bitLen := msg.length * 8
  let zeros := (119 - msg.length % 64) % 64
  msg ++ [0x80] ++ List.replicate zeros 0 ++
    [(bitLen >>> 56) &&& 255, (bitLen >>> 48) &&& 255, (bitLen >>> 40) &&& 255,
     (bitLen >>> 32) &&& 255, (bitLen >>> 24) &&& 255, (bitLen >>> 16) &&& 255,
     (bitLen >>> 8) &&& 255, bitLen &&& 255]

def splitBlocks : Nat → List Nat → List (List Nat)
  | 0, _ => []
  | _ + 1, [] => []
  | fuel + 1, l => l.take 64 :: splitBlocks fuel (l.drop 64)

def wordBytes (w : Nat) : List Nat :=
  [(w >>> 24) &&& 255, (w >>> 16) &&& 255, (w >>> 8) &&& 255, w &&& 255]

/-- SHA-256 digest of a byte list, as the list of 32 digest bytes. -/
def sha256Bytes (msg : List Nat) : List Nat :=
  let padded := shaPad msg
  let final := (splitBlocks (padded.length + 1) padded).foldl shaCompress shaInit
  wordBytes final.a ++ wordBytes final.b ++ wordBytes final.c ++ wordBytes final.d ++
  wordBytes final.e ++ wordBytes final.f ++ wordBytes final.g ++ wordBytes final.h

def hexChars : List Char := "0123456789abcdef".data

def hexChar (n : Nat) : Char := hexChars.getD n '0'

/-- `hashlib`'s `.hexdigest()`: lowercase hex of the digest bytes. -/
def hexDigest (bytes : List Nat) : List Char :=
  bytes.flatMap fun b => [hexChar (b / 16 % 16), hexChar (b % 16)]

/-- UTF-8 encoding of one code point (Python `str.encode()`). -/
def utf8Bytes (c : Char) : List Nat :=
  let n := c.toNat
  if n < 0x80 then [n]
  else if n < 0x800 then
    [0xc0 ||| (n >>> 6), 0x80 ||| (n &&& 0x3f)]
  else if n < 0x10000 then
    [0xe0 ||| (n >>> 12), 0x80 ||| ((n >>> 6) &&& 0x3f), 0x80 ||| (n &&& 0x3f)]
  else
    [0xf0 ||| (n >>> 18), 0x80 ||| ((n >>> 12) &&& 0x3f),
     0x80 ||| ((n >>> 6) &&& 0x3f), 0x80 ||| (n &&& 0x3f)]

def strBytes (s : String) : List Nat := s.data.flatMap utf8Bytes

/-- `hashlib.sha256(s.encode()).hexdigest()` as a Lean string. -/
def sha256HexOfString (s : String) : String := ⟨hexDigest (sha256Bytes (strBytes s))⟩

set_option maxRecDepth 100000 in
/-- Known-answer check for the SHA-256 embedding (NIST vector for "abc"). -/
theorem sha256_known_vector :
    sha256HexOfString "abc" =
      "ba7816bf8f01cfea414140de5dae2223b00361a396177a9cb410ff61f20015ad" := by
  decide

/-! ## Schemas (`open_notebook/extractors/acm_schemas.py`) -/

inductive ExtractionStatus where
  | valid
  | invalid
  | no_acm_data
deriving DecidableEq, Repr

/-- `confidence_distribution`: a dict with exactly the keys high/medium/low. -/
structure ConfidenceDistribution where
  high : Nat
  medium : Nat
  low : Nat
deriving DecidableEq, Repr

/-- `ACMExtractionRecord`.  Required pydantic `str` fields are `String`
(missing = empty), `Optional[...]` fields are `Option ...`; `room_area`
(`Optional[float]`) is `Option ℚ` (no claim computes with it). -/
structure ACMExtractionRecord where
  building_id : String
  room_id : Option String
  product : String
  material_description : String
  result : String
  building_name : Option String
  building_year : Option Int
  building_construction : Option String
  room_name : Option String
  room_area : Option ℚ
  area_type : Option String
  extent : Option String
  location : Option String
  friable : Option String
  material_condition : Option String
  risk_status : Option String
  disturbance_potential : Option String
  sample_no : Option String
  sample_result : Option String
  identifying_company : Option String
  quantity : Option String
  acm_labelled : Option Bool
  acm_label_details : Option String
  hygienist_recommendations : Option String
  psb_supplied_acm_id : Option String
  removal_status : Option String
  date_of_removal : Option String
  extraction_confidence : String
  data_issues : List String
  page_number : Option Int
deriving DecidableEq, Repr

/-- `BuildingRoomContext`. -/
structure BuildingRoomContext where
  school_name : String
  school_code : Option String
  building_id : Option String
  building_name : Option String
  building_year : Option Int
  building_construction : Option String
  room_id : Option String
  room_name : Option String
  room_area : Option ℚ
  area_type : String
  current_page : Nat
deriving DecidableEq, Repr

/-- The pydantic defaults of `BuildingRoomContext`. -/
def defaultBRContext : BuildingRoomContext :=
  { school_name := "Unknown School", school_code := none, building_id := none,
    building_name := none, building_year := none, building_construction := none,
    room_id := none, room_name := none, room_area := none,
    area_type := "Interior", current_page := 1 }

structure ACMExtractionResult where
  records : List ACMExtractionRecord
  status : ExtractionStatus
  total_records : Nat
  records_rejected : Nat
  confidence_distribution : ConfidenceDistribution
  extraction_notes : Option String
deriving DecidableEq, Repr

/-- `ACMExtractionResult.update_stats`: recompute `total_records` and
`confidence_distribution` from `records`. -/
def updateStats (r : ACMExtractionResult) : ACMExtractionResult :=
  { r with
    total_records := r.records.length,
    confidence_distribution :=
      { high := r.records.countP (fun x => (pyLower x.extraction_confidence) == "high"),
        medium := r.records.countP (fun x => (pyLower x.extraction_confidence) == "medium"),
        low := r.records.countP (fun x => (pyLower x.extraction_confidence) == "low") } }

/-! ## Deduplication (`_generate_dedup_key`, `_merge_records`) -/

/-- Python's `value or default` on an `Optional[str]`. -/
def orDefault (v : Option String) (d : String) : String :=
  match v with
  | none => d
  | some s => if s = "" then d else s

/-- The 8-hex-char truncated SHA-256 of the first 50 chars of a description. -/
def dedupHash (desc : String) : String :=
  ⟨(hexDigest (sha256Bytes (strBytes ⟨desc.data.take 50⟩))).take 8⟩

/-- The `school_code or "unknown"` part of the dedup key. -/
def schoolPart (school_code : Option String) : String := orDefault school_code "unknown"

/-- The `record.building_id or "unknown"` part of the dedup key. -/
def buildingPart (record : ACMExtractionRecord) : String :=
  if record.building_id = "" then "unknown" else record.building_id

/-- The `record.room_id or "none"` part of the dedup key. -/
def roomPart (record : ACMExtractionRecord) : String := orDefault record.room_id "none"

/-- `_generate_dedup_key`. -/
def generateDedupKey (record : ACMExtractionRecord) (school_code : Option String) : String :=
  schoolPart school_code ++ "_" ++ buildingPart record ++ "_" ++ roomPart record ++ "_" ++
    dedupHash record.material_description

/-- `confidence_rank.get(conf, 0)` with `{"high": 3, "medium": 2, "low": 1}`. -/
def confidenceRank (c : String) : Nat :=
  if c = "high" then 3 else if c = "medium" then 2 else if c = "low" then 1 else 0

/-- `_merge_records`.  Python computes `list(set(a + b))` for the merged
`data_issues` (a deduplicated list in unspecified order); we take the
canonical first-occurrence representative `(a ++ b).dedup`. -/
def mergeRecords (existing newRec : ACMExtractionRecord) : ACMExtractionRecord :=
  let base :=
    if confidenceRank newRec.extraction_confidence > confidenceRank existing.extraction_confidence
    then newRec else existing
  { base with data_issues := (existing.data_issues ++ newRec.data_issues).dedup }

/-! ## Validation (`validate_records`) -/

/-- Python truthiness of an `Optional[str]`. -/
def optTruthy (o : Option String) : Bool :=
  match o with
  | none => false
  | some s => s != ""

/-- The result-normalization block of `validate_records` (lines 474–484):
given the current `result` and issue list, the normalized result and issues. -/
def normalizeResultAI (result : String) (issues : List String) : String × List String :=
  if result != "" then
    let rl := pyLower result
    if containsStr rl "no asbestos" || containsStr rl "nad" || containsStr rl "not detected" then
      ("Not Detected", issues)
    else if containsStr rl "detected" || containsStr rl "positive" then
      ("Detected", issues)
    else if containsStr rl "presumed" then
      ("Presumed", issues)
    else (result, issues)
  else ("Unknown", issues ++ ["Result field was empty, set to Unknown"])

/-- The missing-required-field issue notes of `validate_records` (lines
460–466). -/
def missingIssues (record : ACMExtractionRecord) : List String :=
  let issues := record.data_issues
  let issues := if record.building_id = "" then issues ++ ["Missing required field: building_id"] else issues
  let issues := if record.product = "" then issues ++ ["Missing required field: product"] else issues
  if record.material_description = "" then issues ++ ["Missing required field: material_description"] else issues

/-- The building-id context inference of `validate_records` (lines 468–471). -/
def fillBuildingId (context : BuildingRoomContext) (building_id : String)
    (issues : List String) : String × List String :=
  if building_id = "" && optTruthy context.building_id then
    (context.building_id.getD "", issues ++ ["Building ID inferred from context"])
  else (building_id, issues)

/-- The confidence normalization of `validate_records` (lines 486–489). -/
def normalizeConfidence (conf : String) (issues : List String) : String × List String :=
  if conf = "high" ∨ conf = "medium" ∨ conf = "low" then (conf, issues)
  else ("medium", issues ++ ["Invalid confidence value normalized to medium"])

/-- The body of `validate_records`' per-record loop: returns the (mutated)
record and whether it is kept (`false` = rejected). -/
def validateOne (context : BuildingRoomContext) (record : ACMExtractionRecord) :
    ACMExtractionRecord × Bool :=
  let filled := fillBuildingId context record.building_id (missingIssues record)
  let normalized := normalizeResultAI record.result filled.2
  let conf := normalizeConfidence record.extraction_confidence normalized.2
  let record := { record with building_id := filled.1, result := normalized.1,
                              extraction_confidence := conf.1, data_issues := conf.2 }
  (record, !(record.building_id == "" || record.product == "" || record.material_description == ""))

/-- `validate_records`: returns (validated records, rejected count). -/
def validateRecords (records : List ACMExtractionRecord) (context : BuildingRoomContext) :
    List ACMExtractionRecord × Nat :=
  if records.isEmpty then ([], 0)
  else
    let processed := records.map (validateOne context)
    ((processed.filter (·.2)).map (·.1), processed.countP (fun p => !p.2))

/-! ## Persistence stage (`save_records`)

The persistence adapter is external: `saveFails i` is the outcome of the
`ACMRecord(...)` conversion plus `save()` call for the i-th record
(`none` = saved, `some msg` = the exception message collected in `errors`).
The Python loop catches each exception and continues with the next record. -/

def emptyDist : ConfidenceDistribution := ⟨0, 0, 0⟩

/-- `save_records`: returns the final `ACMExtractionResult` and the value of
the state's `error` key. -/
def saveRecords (records : List ACMExtractionRecord) (recordsRejected : Nat)
    (saveFails : Nat → Option String) : ACMExtractionResult × Option String :=
  if records.isEmpty then
    ({ records := [], status := .no_acm_data, total_records := 0,
       records_rejected := recordsRejected, confidence_distribution := emptyDist,
       extraction_notes := none }, none)
  else
    let savedCount := (List.range records.length).countP (fun i => (saveFails i).isNone)
    let errors := (List.range records.length).filterMap saveFails
    let result := updateStats
      { records := records,
        status := if savedCount > 0 then .valid else .no_acm_data,
        total_records := savedCount,
        records_rejected := recordsRejected,
        confidence_distribution := emptyDist,
        extraction_notes := none }
    match errors with
    | [] => (result, none)
    | e :: _ =>
      (result, some ("Saved " ++ toString savedCount ++ " records, " ++
                     toString errors.length ++ " failed: " ++ e))

/-! ## Extraction stage (`extract_records` and the graph edges) -/

structure Chunk where
  content : String
  page_number : Nat
  chunk_index : Nat
deriving DecidableEq, Repr

def MAX_RETRIES : Nat := 3

def RETRY_DELAYS : List Nat := [1, 2, 4]

/-- `RETRY_DELAYS[retry_count] if retry_count < len(RETRY_DELAYS) else RETRY_DELAYS[-1]`. -/
def retryDelay (retry : Nat) : Nat :=
  if retry < RETRY_DELAYS.length then RETRY_DELAYS.getD retry 0
  else RETRY_DELAYS.getD (RETRY_DELAYS.length - 1) 0

/-- Sampling temperature passed to `provision_langchain_model`:
`0.1 if retry_count > 0 else 0.3`. -/
def extractTemperature (retry : Nat) : ℚ := if retry > 0 then 0.1 else 0.3

/-- The graph state fields read and written by the EXTRACT stage. -/
structure ExtractState where
  chunks : List Chunk
  current_chunk_index : Nat
  context : BuildingRoomContext
  records : List ACMExtractionRecord
  extraction_result : ACMExtractionResult
  error : Option String
  retry_count : Nat

/-- Outcome of the external model call for one chunk: a structured result,
a pydantic `ValidationError`, any other exception from the call, or a
failure of `provision_langchain_model` itself. -/
inductive ChunkOutcome where
  | ok (result : ACMExtractionResult)
  | invalidOutput (msg : String)
  | transportError (msg : String)
  | provisionError (msg : String)

/-- Context bridging on success: update building/room from the last record. -/
def updateContextFromRecords (context : BuildingRoomContext)
    (newRecords : List ACMExtractionRecord) : BuildingRoomContext :=
  match newRecords.getLast? with
  | none => context
  | some last =>
    let context :=
      if last.building_id != "" then
        { context with building_id := some last.building_id,
                       building_name := last.building_name }
      else context
    if optTruthy last.room_id then
      { context with room_id := last.room_id, room_name := last.room_name }
    else context

/-- `extract_records` as a step function over the graph state; the second
component is the backoff sleep performed (in seconds), if any. -/
def extractStep (st : ExtractState) (outcome : ChunkOutcome) : ExtractState × Option Nat :=
  if st.chunks.isEmpty || st.chunks.length ≤ st.current_chunk_index then
    ({ st with error := some "No chunks to process" }, none)
  else
    let chunk := st.chunks.getD st.current_chunk_index ⟨"", 1, 0⟩
    let context := { st.context with current_page := chunk.page_number }
    match outcome with
    | .provisionError m =>
      ({ st with context := context, error := some ("Model provisioning failed: " ++ m) }, none)
    | .ok result =>
      let result := updateStats result
      let newRecords := result.records
      let context := updateContextFromRecords context newRecords
      ({ st with records := st.records ++ newRecords,
                 context := context,
                 current_chunk_index := st.current_chunk_index + 1,
                 extraction_result := result,
                 retry_count := 0 }, none)
    | .invalidOutput m =>
      if st.retry_count < MAX_RETRIES then
        ({ st with context := context, retry_count := st.retry_count + 1, error := none },
         some (retryDelay st.retry_count))
      else
        ({ st with context := context,
                   error := some ("Extraction validation failed after " ++
                                  toString MAX_RETRIES ++ " retries: " ++ m) }, none)
    | .transportError m =>
      if st.retry_count < MAX_RETRIES then
        ({ st with context := context, retry_count := st.retry_count + 1, error := none },
         some (retryDelay st.retry_count))
      else
        ({ st with context := context,
                   error := some ("Extraction failed after " ++
                                  toString MAX_RETRIES ++ " retries: " ++ m) }, none)

/-- `should_continue_extraction`. -/
def shouldContinueExtraction (st : ExtractState) : String :=
  if st.error.isSome then "error"
  else if st.retry_count > 0 && st.retry_count ≤ MAX_RETRIES then "extract"
  else if st.current_chunk_index < st.chunks.length then "extract"
  else "validate"

/-- `should_save`. -/
def shouldSave (error : Option String) : String :=
  if error.isSome then "error" else "save"

/-- The run status computed in `extract_acm_from_source` from the final graph
state: `failed` when an error is set, else `success`/`no_data` by record
count. -/
def finalRunStatus (error : Option String) (totalRecords : Nat) : String :=
  if error.isSome then "failed"
  else if totalRecords > 0 then "success" else "no_data"

/-! ## Chunker (`_chunk_content`, `_split_by_sections`)

`open_notebook.utils.token_count` is repository code that is not part of the
given sources; the token estimator is therefore passed as an explicit
function parameter `tc` everywhere. -/

def digitsToNat (l : List Char) : Nat :=
  l.foldl (fun a c => a * 10 + (c.toNat - 48)) 0

def isDashEm (c : Char) : Bool := c = '-' || c = '—'

def matchCI : List Char → List Char → Option (List Char)
  | [], l => some l
  | _ :: _, [] => none
  | p :: ps, c :: cs => if c.toLower = p then matchCI ps cs else none

/-- Match `[-—]+\s*Page\s+(\d+)\s*[-—]+` (IGNORECASE) at the head of `l`;
on success return the consumed length and the page number (group 1). -/
def tryMarkerCore (l : List Char) : Option (Nat × Nat) :=
  let d1 := l.takeWhile isDashEm
  if d1.isEmpty then none
  else
    let l1 := (l.drop d1.length).dropWhile pyIsSpace
    let s1 := (l.drop d1.length).takeWhile pyIsSpace
    match matchCI ['p', 'a', 'g', 'e'] l1 with
    | none => none
    | some l2 =>
      let s2 := l2.takeWhile pyIsSpace
      if s2.isEmpty then none
      else
        let l3 := l2.drop s2.length
        let dg := l3.takeWhile Char.isDigit
        if dg.isEmpty then none
        else
          let l4 := l3.drop dg.length
          let s3 := l4.takeWhile pyIsSpace
          let d2 := (l4.drop s3.length).takeWhile isDashEm
          if d2.isEmpty then none
          else
            some (d1.length + s1.length + 4 + s2.length + dg.length + s3.length + d2.length,
                  digitsToNat dg)

/-- `re.finditer` for the page-marker pattern `(?:^|\n)[-—]+\s*Page\s+(\d+)\s*[-—]+`
(no MULTILINE, so `^` only matches position 0; a `\n` alternative is part of
the match).  Returns the list of (match start, page number). -/
def findMarkersAux : Nat → List Char → Nat → List (Nat × Nat)
  | 0, _, _ => []
  | _ + 1, [], _ => []
  | fuel + 1, c :: cs, pos =>
    if pos = 0 then
      match tryMarkerCore (c :: cs) with
      | some (len, num) => (pos, num) :: findMarkersAux fuel ((c :: cs).drop len) (pos + len)
      | none =>
        if c = '\n' then
          match tryMarkerCore cs with
          | some (len, num) => (pos, num) :: findMarkersAux fuel (cs.drop len) (pos + 1 + len)
          | none => findMarkersAux fuel cs (pos + 1)
        else findMarkersAux fuel cs (pos + 1)
    else
      if c = '\n' then
        match tryMarkerCore cs with
        | some (len, num) => (pos, num) :: findMarkersAux fuel (cs.drop len) (pos + 1 + len)
        | none => findMarkersAux fuel cs (pos + 1)
      else findMarkersAux fuel cs (pos + 1)

def findPageMarkers (s : String) : List (Nat × Nat) :=
  findMarkersAux (s.data.length + 1) s.data 0

/-- The `(start, end)` page slices: each marker starts a slice ending at the
next marker (or the end of the content). -/
def pageSlices (cs : List Char) : List (Nat × Nat) → List (List Char × Nat)
  | [] => []
  | (st, num) :: rest =>
    let e := match rest with
      | [] => cs.length
      | (st2, _) :: _ => st2
    ((cs.drop st).take (e - st), num) :: pageSlices cs rest

/-! ### `_split_by_sections`: `re.split(r'(^#{1,3}\s+.+$)', s, flags=MULTILINE)` -/

/-- Match `#{1,3}\s+.+$` (MULTILINE `$`) at the head of `l`; on success
return (matched chars, rest), with `matched ++ rest = l`. -/
def matchHeader (l : List Char) : Option (List Char × List Char) :=
  let hashes := l.takeWhile (· = '#')
  let h := hashes.length
  if h = 0 || 3 < h then none
  else
    let rest1 := l.drop h
    let ws := rest1.takeWhile pyIsSpace
    let m := ws.length
    if m = 0 then none
    else
      let rest2 := rest1.drop m
      match rest2 with
      | _ :: _ =>
        let body := rest2.takeWhile (· ≠ '\n')
        some (hashes ++ ws ++ body, rest2.drop body.length)
      | [] =>
        -- `\s+` backtracks to the largest k < m with a non-newline char next
        let k? := (List.range m).foldl
          (fun acc k => if 1 ≤ k && ws.getD k '\n' ≠ '\n' then some k else acc) none
        match k? with
        | none => none
        | some k =>
          let body := (ws.drop k).takeWhile (· ≠ '\n')
          some (hashes ++ ws.take k ++ body, ws.drop (k + body.length))

/-- Leftmost header match at a line start: returns `(pre, sep, rest)` with
`pre ++ sep ++ rest = l`. -/
def findNextHeader : List Char → Bool → Option (List Char × List Char × List Char)
  | [], _ => none
  | c :: cs, atStart =>
    match (if atStart then matchHeader (c :: cs) else none) with
    | some (sep, rest) => some ([], sep, rest)
    | none =>
      match findNextHeader cs (c = '\n') with
      | some (pre, sep, rest) => some (c :: pre, sep, rest)
      | none => none

def mdSplitAux : Nat → List Char → Bool → List String
  | 0, l, _ => [⟨l⟩]
  | fuel + 1, l, atStart =>
    match findNextHeader l atStart with
    | none => [⟨l⟩]
    | some (pre, sep, rest) => (⟨pre⟩ : String) :: (⟨sep⟩ : String) :: mdSplitAux fuel rest false

/-- `re.split` with one capture group: alternating text and separator pieces
whose concatenation is the input. -/
def mdSplit (s : String) : List String := mdSplitAux (s.data.length + 1) s.data true

def splitSectionsLoop (tc : String → Nat) (maxTokens : Nat) :
    List String → String → List String → List String
  | [], current, chunks =>
    if current = "" then chunks else chunks ++ [current]
  | sec :: rest, current, chunks =>
    if pyStrip sec = "" then splitSectionsLoop tc maxTokens rest current chunks
    else if maxTokens < tc (current ++ sec) then
      splitSectionsLoop tc maxTokens rest sec
        (if current = "" then chunks else chunks ++ [current])
    else splitSectionsLoop tc maxTokens rest (current ++ sec) chunks

/-- `_split_by_sections` (its `base_page` argument is unused in the source). -/
def splitBySections (tc : String → Nat) (content : String) (maxTokens : Nat) : List String :=
  let out := splitSectionsLoop tc maxTokens (mdSplit content) "" []
  if out.isEmpty then [content] else out

/-- The page-marker branch of `_chunk_content`: one chunk per page slice,
oversized slices split further by sections; `chunk_index = len(chunks)`. -/
def buildPageChunks (tc : String → Nat) (threshold : Nat) :
    List (List Char × Nat) → List Chunk → List Chunk
  | [], acc => acc
  | (slice, num) :: rest, acc =>
    let s : String := ⟨slice⟩
    let acc :=
      if threshold < tc s then
        acc ++ ((splitBySections tc s threshold).enum.map fun p =>
          ({ content := p.2, page_number := num, chunk_index := acc.length + p.1 } : Chunk))
      else acc ++ [{ content := s, page_number := num, chunk_index := acc.length }]
    buildPageChunks tc threshold rest acc

/-- `str.rfind("\n", lo, hi)`: the largest `p ∈ [lo, hi)` with `cs[p] = '\n'`. -/
def rfindNewline (cs : List Char) (lo hi : Nat) : Option Nat :=
  (List.range (hi - lo)).foldl
    (fun acc i => if cs.getD (lo + i) ' ' = '\n' then some (lo + i) else acc) none

/-- The no-marker branch of `_chunk_content`: fixed character windows with
overlap, preferring to break at a newline.  The Python `while` loop advances
`start` by at least `chunk_size - 2*overlap` per iteration in the regime the
repository uses (default context window), so `|content| + 1` fuel suffices. -/
def charWindowsAux (cs : List Char) (chunkSize overlap : Nat) :
    Nat → Nat → Nat → List Chunk → List Chunk
  | 0, _, _, acc => acc
  | fuel + 1, start, pageNum, acc =>
    if start < cs.length then
      let e0 := min (start + chunkSize) cs.length
      let e :=
        if e0 < cs.length then
          match rfindNewline cs (start + chunkSize - overlap) e0 with
          | some p => if start < p then p + 1 else e0
          | none => e0
        else e0
      let acc := acc ++ [({ content := ⟨(cs.drop start).take (e - start)⟩,
                            page_number := pageNum, chunk_index := acc.length } : Chunk)]
      charWindowsAux cs chunkSize overlap fuel
        (if e < cs.length then e - overlap else e) (pageNum + 1) acc
    else acc

/-- `_chunk_content`. -/
def chunkContent (tc : String → Nat) (content : String) (contextWindow : Nat) : List Chunk :=
  let tokens := tc content
  let threshold := contextWindow / 2
  if tokens ≤ threshold then
    [{ content := content, page_number := 1, chunk_index := 0 }]
  else
    match findPageMarkers content with
    | [] => charWindowsAux content.data (threshold * 4) 500 (content.data.length + 1) 0 1 []
    | m :: ms => buildPageChunks tc threshold (pageSlices content.data (m :: ms)) []

/-- `DEFAULT_CONTEXT_WINDOW` (the only call site uses this default). -/
def DEFAULT_CONTEXT_WINDOW : Nat := 128000

/-! ## Pattern table parser (`open_notebook/extractors/acm_extractor.py`)

The regexes `BUILDING_PATTERN`, `ROOM_PATTERN`, `AREA_TYPE_PATTERN` and the
per-line `PAGE_PATTERN` search are embedded as hand-rolled matchers with
Python's leftmost/greedy/lazy backtracking order. -/

/-- `ParseContext` with its dataclass defaults. -/
structure ParseContext where
  school_name : String
  school_code : Option String
  building_id : String
  building_name : Option String
  building_year : Option Int
  building_construction : Option String
  room_id : Option String
  room_name : Option String
  room_area : Option ℚ
  area_type : String
  current_page : Nat
deriving DecidableEq, Repr

def defaultParseContext : ParseContext :=
  { school_name := "", school_code := none, building_id := "", building_name := none,
    building_year := none, building_construction := none, room_id := none,
    room_name := none, room_area := none, area_type := "Interior", current_page := 1 }

/-- `ExtractedACMRow`. -/
structure ExtractedACMRow where
  school_name : String
  school_code : Option String
  building_id : String
  building_name : Option String
  building_year : Option Int
  building_construction : Option String
  room_id : Option String
  room_name : Option String
  room_area : Option ℚ
  area_type : String
  page_number : Nat
  product : String
  material_description : String
  extent : Option String
  location : Option String
  friable : Option String
  material_condition : Option String
  risk_status : Option String
  result : String
deriving DecidableEq, Repr

def isAlphaCI (c : Char) : Bool := c.isAlpha

def isAlnumCI (c : Char) : Bool := c.isAlpha || c.isDigit

/-- The character class `[-–]` (hyphen or en-dash) of the header patterns. -/
def isDashEn (c : Char) : Bool := c = '-' || c = '–'

/-- `\s*[-–]\s*`. -/
def sepDash (l : List Char) : Option (List Char) :=
  match l.dropWhile pyIsSpace with
  | c :: cs => if isDashEn c then some (cs.dropWhile pyIsSpace) else none
  | [] => none

def allNonDash (l : List Char) : Bool := l.all fun c => !isDashEn c && c ≠ '\n'

def takeExactDigits : Nat → List Char → Option (List Char × List Char)
  | 0, l => some ([], l)
  | n + 1, c :: cs =>
    if c.isDigit then (takeExactDigits n cs).map (fun p => (c :: p.1, p.2)) else none
  | _ + 1, [] => none

/-- `BUILDING_PATTERN` group 1 `([A-Z]\d+[A-Z]?)` (IGNORECASE): candidate
(group, rest) pairs in backtracking preference order. -/
def bGroup1Cands (l : List Char) : List (List Char × List Char) :=
  match l with
  | [] => []
  | c :: cs =>
    if isAlphaCI c then
      let ds := cs.takeWhile Char.isDigit
      if ds.isEmpty then []
      else
        match cs.drop ds.length with
        | d :: es =>
          if isAlphaCI d then [(c :: (ds ++ [d]), es), (c :: ds, d :: es)]
          else [(c :: ds, d :: es)]
        | [] => [(c :: ds, [])]
    else []

/-- `(?:\s*[-–]\s*([^-–\n]+?))?$`: the optional lazy construction group must
cover the whole remainder. -/
def bConstr (l : List Char) : Option (List Char) :=
  match sepDash l with
  | none => none
  | some l1 => if !l1.isEmpty && allNonDash l1 then some l1 else none

/-- The continuations after building group 2, in Python preference order:
year present (then construction present/absent), year absent (likewise). -/
def bTryCont (l : List Char) : Option (Option (List Char) × Option (List Char)) :=
  (match sepDash l with
   | none => none
   | some l1 =>
     match takeExactDigits 4 l1 with
     | none => none
     | some (ds, l2) =>
       match bConstr l2 with
       | some c => some (some ds, some c)
       | none => if l2.isEmpty then some (some ds, none) else none) <|>
  (match bConstr l with
   | some c => some ((none : Option (List Char)), some c)
   | none => if l.isEmpty then some (none, none) else none)

/-- Lazy `([^-–\n]+?)` for building group 2: grow char by char, testing the
continuations at each extent. -/
def bTail : List Char → List Char → Option (List Char × Option (List Char) × Option (List Char))
  | [], accRev =>
    match (if accRev.isEmpty then none else bTryCont []) with
    | some (y, c) => some (accRev.reverse, y, c)
    | none => none
  | c :: cs, accRev =>
    match (if accRev.isEmpty then none else bTryCont (c :: cs)) with
    | some (y, cst) => some (accRev.reverse, y, cst)
    | none => if isDashEn c || c = '\n' then none else bTail cs (c :: accRev)

def bAfterOptPrefix (l : List Char) : Option (String × String × Option String × Option String) :=
  (bGroup1Cands l).findSome? fun p =>
    match sepDash p.2 with
    | none => none
    | some rest2 =>
      match bTail rest2 [] with
      | none => none
      | some (g2, y, c) =>
        some (⟨p.1⟩, ⟨g2⟩, y.map (fun ds => (⟨ds⟩ : String)), c.map (fun cl => (⟨cl⟩ : String)))

/-- `BUILDING_PATTERN.match(line)`: raw groups 1–4. -/
def matchBuilding (line : String) : Option (String × String × Option String × Option String) :=
  let l := line.data
  let hashes := l.takeWhile (· = '#')
  if hashes.isEmpty then none
  else
    let after := (l.drop hashes.length).dropWhile pyIsSpace
    (match matchCI "building".data after with
     | some l1 => bAfterOptPrefix (l1.dropWhile fun c => c = ':' || pyIsSpace c)
     | none => none) <|>
    bAfterOptPrefix after

/-- `ROOM_PATTERN` group 1 `([A-Z0-9]+-?R?\d+)`: candidate (group, rest)
pairs in backtracking preference order (longest alnum run first, literal
hyphen preferred, `R` preferred, then a maximal digit run). -/
def rG1From (pre rest : List Char) : List (List Char × List Char) :=
  let dashVars :=
    match rest with
    | c :: cs => if c = '-' then [(pre ++ [c], cs), (pre, rest)] else [(pre, rest)]
    | [] => [(pre, rest)]
  dashVars.flatMap fun q =>
    let rVars :=
      match q.2 with
      | c :: cs => if c = 'r' || c = 'R' then [(q.1 ++ [c], cs), (q.1, q.2)] else [(q.1, q.2)]
      | [] => [(q.1, q.2)]
    rVars.filterMap fun w =>
      let ds := w.2.takeWhile Char.isDigit
      if ds.isEmpty then none else some (w.1 ++ ds, w.2.drop ds.length)

def rGroup1Cands (l : List Char) : List (List Char × List Char) :=
  let an := l.takeWhile isAlnumCI
  ((List.range an.length).map (fun i => an.length - i)).flatMap fun k =>
    rG1From (l.take k) (l.drop k)

/-- The continuations after room group 2: the optional area group
`(?:\s*[-–]\s*([\d.]+)\s*m²)?` then `$`. -/
def rTryCont (l : List Char) : Option (Option (List Char)) :=
  (match sepDash l with
   | none => none
   | some l1 =>
     let ds := l1.takeWhile fun c => c.isDigit || c = '.'
     if ds.isEmpty then none
     else
       match (l1.drop ds.length).dropWhile pyIsSpace with
       | m :: sq :: rest =>
         if (m = 'm' || m = 'M') && sq = '²' && rest.isEmpty then some (some ds) else none
       | _ => none) <|>
  (if l.isEmpty then some none else none)

def rTail : List Char → List Char → Option (List Char × Option (List Char))
  | [], accRev =>
    match (if accRev.isEmpty then none else rTryCont []) with
    | some a => some (accRev.reverse, a)
    | none => none
  | c :: cs, accRev =>
    match (if accRev.isEmpty then none else rTryCont (c :: cs)) with
    | some a => some (accRev.reverse, a)
    | none => if isDashEn c || c = '\n' then none else rTail cs (c :: accRev)

def rAfterOptPrefix (l : List Char) : Option (String × String × Option String) :=
  (rGroup1Cands l).findSome? fun p =>
    match sepDash p.2 with
    | none => none
    | some rest2 =>
      match rTail rest2 [] with
      | none => none
      | some (g2, a) => some (⟨p.1⟩, ⟨g2⟩, a.map (fun al => (⟨al⟩ : String)))

/-- `ROOM_PATTERN.match(line)`: raw groups 1–3. -/
def matchRoom (line : String) : Option (String × String × Option String) :=
  let l := line.data
  let hashes := l.takeWhile (· = '#')
  if hashes.isEmpty then none
  else
    let after := (l.drop hashes.length).dropWhile pyIsSpace
    (match matchCI "room".data after with
     | some l1 => rAfterOptPrefix (l1.dropWhile fun c => c = ':' || pyIsSpace c)
     | none => none) <|>
    rAfterOptPrefix after

def isWordChar (c : Char) : Bool := c.isAlpha || c.isDigit || c = '_'

/-- `(\bExterior\b|\bInterior\b|\bGrounds\b)`; returns the canonical
`.strip().title()` form the source stores in `area_type`. -/
def matchAreaWord (l : List Char) (prevIsWord : Bool) : Option String :=
  if prevIsWord then none
  else
    [("exterior", "Exterior"), ("interior", "Interior"), ("grounds", "Grounds")].findSome?
      fun p =>
        match matchCI p.1.data l with
        | none => none
        | some rest =>
          match rest with
          | [] => some p.2
          | c :: _ => if isWordChar c then none else some p.2

/-- `AREA_TYPE_PATTERN.match(line)` followed by `.strip().title()`. -/
def matchArea (line : String) : Option String :=
  let l := line.data
  let hashes := l.takeWhile (· = '#')
  if hashes.isEmpty then none
  else
    let after := (l.drop hashes.length).dropWhile pyIsSpace
    (match matchCI "area".data after with
     | some r1 =>
       match matchCI "type".data (r1.dropWhile pyIsSpace) with
       | some r3 =>
         let r4 := r3.dropWhile fun c => c = ':' || pyIsSpace c
         -- zero chars consumed by `[:\s]*` leaves a word char before `\b`
         matchAreaWord r4 (r4.length = r3.length)
       | none => none
     | none => none) <|>
    matchAreaWord after false

/-- The parser's per-line `PAGE_PATTERN.search(line)` on a stripped line:
`(?:^|\n)` can only anchor at position 0. -/
def matchPageLine (line : String) : Option Nat := (tryMarkerCore line.data).map (·.2)

/-- Python `float(s)` on a `[\d.]+` token. -/
def parsePyFloat (s : String) : Option ℚ :=
  let cs := s.data
  if cs.any Char.isDigit && cs.countP (fun c => c = '.') ≤ 1 then
    let intPart := cs.takeWhile Char.isDigit
    let frac := (cs.dropWhile Char.isDigit).drop 1
    some ((digitsToNat intPart : ℚ) + (digitsToNat frac : ℚ) / ((10 : ℚ) ^ frac.length))
  else none

/-- One iteration of the `extract_acm_records` line loop for a non-table
line: page marker, area type, building header, room header — in source
order, each updating the context in place. -/
def processLine (ctx : ParseContext) (rawLine : String) : ParseContext :=
  let line := pyStrip rawLine
  let ctx :=
    match matchPageLine line with
    | some n => { ctx with current_page := n }
    | none => ctx
  let ctx :=
    match matchArea line with
    | some a => { ctx with area_type := a }
    | none => ctx
  let ctx :=
    match matchBuilding line with
    | some (g1, g2, g3, g4) =>
      { ctx with
        building_id := pyStrip g1,
        building_name := some (pyStrip g2),
        building_year := g3.map fun ds => (digitsToNat ds.data : Int),
        building_construction := g4.map pyStrip,
        room_id := none, room_name := none, room_area := none,
        area_type := "Interior" }
    | none => ctx
  match matchRoom line with
  | some (g1, g2, g3) =>
    { ctx with
      room_id := some (pyStrip g1),
      room_name := some (pyStrip g2),
      room_area :=
        match g3 with
        | some a =>
          match parsePyFloat a with
          | some q => some q
          | none => ctx.room_area
        | none => ctx.room_area }
  | none => ctx

/-! ### Table parsing (`_parse_acm_table`, `_create_row_from_cells`) -/

structure HeaderMap where
  product : Option Nat
  material_description : Option Nat
  extent : Option Nat
  location : Option Nat
  friable : Option Nat
  material_condition : Option Nat
  risk_status : Option Nat
  result : Option Nat
deriving DecidableEq, Repr

def emptyHeaderMap : HeaderMap := ⟨none, none, none, none, none, none, none, none⟩

/-- One step of `_create_header_map`'s `elif` chain. -/
def updateHeaderMap (m : HeaderMap) (ih : Nat × String) : HeaderMap :=
  let i := ih.1
  let hl := pyLower ih.2
  if containsStr hl "product" then { m with product := some i }
  else if containsStr hl "material" && containsStr hl "desc" then
    { m with material_description := some i }
  else if containsStr hl "extent" then { m with extent := some i }
  else if containsStr hl "location" then { m with location := some i }
  else if containsStr hl "friable" then { m with friable := some i }
  else if containsStr hl "condition" then { m with material_condition := some i }
  else if containsStr hl "risk" then { m with risk_status := some i }
  else if containsStr hl "result" then { m with result := some i }
  else m

def createHeaderMap (headers : List String) : HeaderMap :=
  headers.enum.foldl updateHeaderMap emptyHeaderMap

/-- `[h.strip().lower() for h in line.split("|") if h.strip()]`. -/
def headerCells (line : String) : List String :=
  (((pySplitPipe line).map pyStrip).filter (· ≠ "")).map pyLower

/-- `any(h in " ".join(headers) for h in ACM_REQUIRED_HEADERS)`. -/
def acmHeadersPresent (headers : List String) : Bool :=
  let joined := String.intercalate " " headers
  containsStr joined "product" || containsStr joined "material description" ||
    containsStr joined "result"

/-- Drop an empty leading/trailing cell produced by edge pipes. -/
def stripEdges (cells : List String) : List String :=
  let c1 := match cells with
    | "" :: rest => rest
    | _ => cells
  match c1.getLast? with
  | some "" => c1.dropLast
  | _ => c1

/-- `get_cell` of `_create_row_from_cells`. -/
def getCell (cells : List String) (idx : Option Nat) : Option String :=
  match idx with
  | some i =>
    if i < cells.length then
      let v := pyStrip (cells.getD i "")
      if v = "" then none else some v
    else none
  | none => none

/-- The result-normalization block of `_create_row_from_cells`
(lines 357–361 plus the final `result or ""`). -/
def normalizeResultRow (result0 : Option String) : String :=
  match result0 with
  | some r =>
    if containsStr (pyLower r) "no asbestos" then "Not Detected"
    else if containsStr (pyLower r) "detected" then "Detected"
    else r
  | none => ""

/-- `_create_row_from_cells`. -/
def createRowFromCells (cells : List String) (hm : HeaderMap) (ctx : ParseContext) :
    Option ExtractedACMRow :=
  let product := getCell cells hm.product
  let materialDesc := getCell cells hm.material_description
  let result0 := getCell cells hm.result
  match product, materialDesc with
  | some p, some d =>
    let result1 := normalizeResultRow result0
    some { school_name := if ctx.school_name = "" then "Unknown School" else ctx.school_name,
           school_code := ctx.school_code,
           building_id := if ctx.building_id = "" then "Unknown" else ctx.building_id,
           building_name := ctx.building_name,
           building_year := ctx.building_year,
           building_construction := ctx.building_construction,
           room_id := ctx.room_id,
           room_name := ctx.room_name,
           room_area := ctx.room_area,
           area_type := ctx.area_type,
           page_number := ctx.current_page,
           product := p,
           material_description := d,
           extent := getCell cells hm.extent,
           location := getCell cells hm.location,
           friable := getCell cells hm.friable,
           material_condition := getCell cells hm.material_condition,
           risk_status := getCell cells hm.risk_status,
           result := result1 }
  | _, _ => none

/-- The body of `_parse_acm_table`'s data-row loop for one line: the rows
it appends (none for separator lines, short lines, or rows whose required
cells are missing). -/
def rowOf (hm : HeaderMap) (ctx : ParseContext) (line : String) : List ExtractedACMRow :=
  if containsStr line "---" then []
  else
    let cells := stripEdges ((pySplitPipe line).map pyStrip)
    if cells.length < 2 then []
    else
      match createRowFromCells cells hm ctx with
      | some row => if row.product = "" then [] else [row]
      | none => []

/-- `_parse_acm_table`. -/
def parseAcmTable (tableLines : List String) (ctx : ParseContext) : List ExtractedACMRow :=
  if tableLines.length < 2 then []
  else
    let headers := headerCells (tableLines.getD 0 "")
    if !acmHeadersPresent headers then []
    else
      let hm := createHeaderMap headers
      let dataStart :=
        if 2 < tableLines.length && containsStr (tableLines.getD 1 "") "---" then 2 else 1
      (tableLines.drop dataStart).foldl (fun rows line => rows ++ rowOf hm ctx line) []

/-! ## Helper lemmas -/

theorem union_eq_right {α : Type} [DecidableEq α] {l₁ l₂ : List α}
    (h : ∀ a ∈ l₁, a ∈ l₂) : l₁ ∪ l₂ = l₂ := by
  induction l₁ with
  | nil => rfl
  | cons a t ih =>
    have ht : t ∪ l₂ = l₂ := ih fun x hx => h x (List.mem_cons_of_mem a hx)
    show List.insert a (t ∪ l₂) = l₂
    rw [ht, List.insert_of_mem (h a (List.mem_cons_self a t))]

theorem dedup_append_self {α : Type} [DecidableEq α] (x : List α) :
    (x ++ x).dedup = x.dedup := by
  rw [List.dedup_append]
  exact union_eq_right fun a ha => List.mem_dedup.mpr ha

/-- A sample record used to instantiate witnesses on concrete inputs. -/
def baseRecord : ACMExtractionRecord :=
  { building_id := "B1", room_id := none, product := "Tiles", material_description := "Vinyl",
    result := "Detected", building_name := none, building_year := none,
    building_construction := none, room_name := none, room_area := none,
    area_type := some "Interior", extent := none, location := none, friable := none,
    material_condition := none, risk_status := none, disturbance_potential := none,
    sample_no := none, sample_result := none, identifying_company := none, quantity := none,
    acm_labelled := none, acm_label_details := none, hygienist_recommendations := none,
    psb_supplied_acm_id := none, removal_status := none, date_of_removal := none,
    extraction_confidence := "medium", data_issues := [], page_number := none }

/-! ## C4 — merge semantics -/

theorem mergeRecords_of_lt {e n : ACMExtractionRecord}
    (h : confidenceRank e.extraction_confidence < confidenceRank n.extraction_confidence) :
    mergeRecords e n = { n with data_issues := (e.data_issues ++ n.data_issues).dedup } := by
  simp only [mergeRecords, if_pos h]

theorem mergeRecords_of_le {e n : ACMExtractionRecord}
    (h : confidenceRank n.extraction_confidence ≤ confidenceRank e.extraction_confidence) :
    mergeRecords e n = { e with data_issues := (e.data_issues ++ n.data_issues).dedup } := by
  simp only [mergeRecords, if_neg (not_lt.mpr h)]

/-- C4: `_merge_records` ranks confidence high=3 / medium=2 / low=1, takes
every scalar field from the higher-ranked record (ties keep the first-seen
record), and its `data_issues` is the set union of both issue sets; merging
low with high (in either order) yields the high record's scalar fields with
the union of issues, and merging a record with itself preserves every scalar
field and the issue set (literal idempotence when the issue list is
duplicate-free, matching the spec's issues-are-a-set data model). -/
theorem merge_records_spec (e n : ACMExtractionRecord) :
    (confidenceRank "high" = 3 ∧ confidenceRank "medium" = 2 ∧ confidenceRank "low" = 1) ∧
    (confidenceRank e.extraction_confidence < confidenceRank n.extraction_confidence →
      mergeRecords e n = { n with data_issues := (e.data_issues ++ n.data_issues).dedup }) ∧
    (confidenceRank n.extraction_confidence ≤ confidenceRank e.extraction_confidence →
      mergeRecords e n = { e with data_issues := (e.data_issues ++ n.data_issues).dedup }) ∧
    (∀ x, x ∈ (mergeRecords e n).data_issues ↔ x ∈ e.data_issues ∨ x ∈ n.data_issues) ∧
    (e.extraction_confidence = "low" → n.extraction_confidence = "high" →
      mergeRecords e n = { n with data_issues := (e.data_issues ++ n.data_issues).dedup } ∧
      mergeRecords n e = { n with data_issues := (n.data_issues ++ e.data_issues).dedup }) ∧
    (mergeRecords e e = { e with data_issues := e.data_issues.dedup } ∧
      (∀ x, x ∈ (mergeRecords e e).data_issues ↔ x ∈ e.data_issues) ∧
      (e.data_issues.Nodup → mergeRecords e e = e)) := by
  have hself : mergeRecords e e = { e with data_issues := e.data_issues.dedup } := by
    rw [mergeRecords_of_le le_rfl, dedup_append_self]
  refine ⟨⟨rfl, rfl, rfl⟩, mergeRecords_of_lt, mergeRecords_of_le, ?_, ?_, hself, ?_, ?_⟩
  · intro x
    simp only [mergeRecords]
    simp [List.mem_dedup, List.mem_append]
  · intro he hn
    have hlt : confidenceRank e.extraction_confidence < confidenceRank n.extraction_confidence := by
      rw [he, hn]; decide
    exact ⟨mergeRecords_of_lt hlt, mergeRecords_of_le (le_of_lt hlt)⟩
  · intro x
    rw [hself]
    simp [List.mem_dedup]
  · intro h
    rw [hself, List.Nodup.dedup h]

/-- Witness for C4 at concrete records. -/
theorem merge_records_spec_witness :
    mergeRecords
        { baseRecord with extraction_confidence := "low", data_issues := ["a"] }
        { baseRecord with extraction_confidence := "high", data_issues := ["b"],
                          location := some "Ceiling" } =
      { baseRecord with extraction_confidence := "high", data_issues := ["a", "b"],
                        location := some "Ceiling" } ∧
    mergeRecords
        { baseRecord with extraction_confidence := "high", data_issues := ["b"],
                          location := some "Ceiling" }
        { baseRecord with extraction_confidence := "low", data_issues := ["a"] } =
      { baseRecord with extraction_confidence := "high", data_issues := ["b", "a"],
                        location := some "Ceiling" } := by
  have h := (merge_records_spec
    { baseRecord with extraction_confidence := "low", data_issues := ["a"] }
    { baseRecord with extraction_confidence := "high", data_issues := ["b"],
                      location := some "Ceiling" }).2.2.2.2.1 rfl rfl
  exact ⟨h.1.trans (by decide), h.2.trans (by decide)⟩

/-! ## C3 — deduplication key -/

theorem string_eq_of_data {s t : String} (h : s.data = t.data) : s = t :=
  String.ext h

theorem append_sep_inj {sep : Char} {a b r1 r2 : List Char}
    (ha : sep ∉ a) (hb : sep ∉ b) (h : a ++ sep :: r1 = b ++ sep :: r2) :
    a = b ∧ r1 = r2 := by
  induction a generalizing b with
  | nil =>
    cases b with
    | nil => simpa using h
    | cons d bt =>
      simp only [List.nil_append, List.cons_append, List.cons.injEq] at h
      exact absurd (h.1 ▸ List.mem_cons_self d bt) (h.1 ▸ hb)
  | cons c t ih =>
    cases b with
    | nil =>
      simp only [List.cons_append, List.nil_append, List.cons.injEq] at h
      exact absurd (h.1 ▸ List.mem_cons_self c t) (h.1 ▸ ha)
    | cons d bt =>
      simp only [List.cons_append, List.cons.injEq] at h
      have := ih (fun hc => ha (List.mem_cons_of_mem c hc))
        (fun hc => hb (List.mem_cons_of_mem d hc)) h.2
      exact ⟨by rw [h.1, this.1], this.2⟩

theorem hexChar_ne_underscore (n : Nat) : hexChar n ≠ '_' := by
  unfold hexChar
  rcases lt_or_ge n 16 with h | h
  · interval_cases n <;> decide
  · rw [List.getD_eq_default]
    · decide
    · have hl : hexChars.length = 16 := rfl
      rw [hl]
      exact h

theorem mem_hexDigest {c : Char} {bs : List Nat} (h : c ∈ hexDigest bs) :
    ∃ n, c = hexChar n := by
  unfold hexDigest at h
  rw [List.mem_flatMap] at h
  obtain ⟨b, _, hc⟩ := h
  simp only [List.mem_cons, List.mem_singleton, List.not_mem_nil, or_false] at hc
  rcases hc with hc | hc
  · exact ⟨b / 16 % 16, hc⟩
  · exact ⟨b % 16, hc⟩

theorem dedupHash_no_underscore (d : String) : '_' ∉ (dedupHash d).data := by
  intro hmem
  have h : '_' ∈ hexDigest (sha256Bytes (strBytes ⟨d.data.take 50⟩)) :=
    List.mem_of_mem_take hmem
  obtain ⟨n, hn⟩ := mem_hexDigest h
  exact hexChar_ne_underscore n hn.symm

theorem hexDigest_length (bs : List Nat) : (hexDigest bs).length = 2 * bs.length := by
  induction bs with
  | nil => rfl
  | cons b t ih => simp [hexDigest, List.flatMap_cons] at ih ⊢; omega

theorem sha256Bytes_length (msg : List Nat) : (sha256Bytes msg).length = 32 := by
  simp [sha256Bytes, wordBytes]

theorem dedupHash_length (d : String) : (dedupHash d).data.length = 8 := by
  show ((hexDigest (sha256Bytes (strBytes ⟨d.data.take 50⟩))).take 8).length = 8
  rw [List.length_take, hexDigest_length, sha256Bytes_length]
  omega

theorem generateDedupKey_data (r : ACMExtractionRecord) (sc : Option String) :
    (generateDedupKey r sc).data =
      (schoolPart sc).data ++ '_' :: ((buildingPart r).data ++ '_' ::
        ((roomPart r).data ++ '_' :: (dedupHash r.material_description).data)) := by
  simp [generateDedupKey, String.instAppend, String.append, List.append_assoc]

theorem key_inj_parts {s1 b1 r1 h1 s2 b2 r2 h2 : String}
    (hs1 : '_' ∉ s1.data) (hb1 : '_' ∉ b1.data) (hr1 : '_' ∉ r1.data)
    (hs2 : '_' ∉ s2.data) (hb2 : '_' ∉ b2.data) (hr2 : '_' ∉ r2.data)
    (h : s1.data ++ '_' :: (b1.data ++ '_' :: (r1.data ++ '_' :: h1.data)) =
         s2.data ++ '_' :: (b2.data ++ '_' :: (r2.data ++ '_' :: h2.data))) :
    s1 = s2 ∧ b1 = b2 ∧ r1 = r2 ∧ h1 = h2 := by
  obtain ⟨e1, t1⟩ := append_sep_inj hs1 hs2 h
  obtain ⟨e2, t2⟩ := append_sep_inj hb1 hb2 t1
  obtain ⟨e3, t3⟩ := append_sep_inj hr1 hr2 t2
  exact ⟨string_eq_of_data e1, string_eq_of_data e2, string_eq_of_data e3,
    string_eq_of_data t3⟩

/-- C3 (amended): equal tuples (school_code, building_id, room_id,
first-50-chars of the description) give equal dedup keys; the description
hash is 8 characters; and when the school/building/room parts (with their
`unknown`/`none` defaults) contain no underscore, equal keys force equal
parts and equal description hashes.  The unrestricted converse of the claim
is refuted by `dedup_key_collision_cex`. -/
theorem dedup_key_spec (r1 r2 : ACMExtractionRecord) (sc1 sc2 : Option String) :
    ((sc1 = sc2 ∧ r1.building_id = r2.building_id ∧ r1.room_id = r2.room_id ∧
        r1.material_description.data.take 50 = r2.material_description.data.take 50) →
      generateDedupKey r1 sc1 = generateDedupKey r2 sc2) ∧
    (dedupHash r1.material_description).data.length = 8 ∧
    ('_' ∉ (schoolPart sc1).data → '_' ∉ (buildingPart r1).data →
     '_' ∉ (roomPart r1).data → '_' ∉ (schoolPart sc2).data →
     '_' ∉ (buildingPart r2).data → '_' ∉ (roomPart r2).data →
      generateDedupKey r1 sc1 = generateDedupKey r2 sc2 →
      schoolPart sc1 = schoolPart sc2 ∧ buildingPart r1 = buildingPart r2 ∧
        roomPart r1 = roomPart r2 ∧
        dedupHash r1.material_description = dedupHash r2.material_description) := by
  refine ⟨?_, dedupHash_length _, ?_⟩
  · rintro ⟨hsc, hb, hr, hd⟩
    unfold generateDedupKey schoolPart buildingPart roomPart dedupHash
    rw [hsc, hb, hr, hd]
  · intro hs1 hb1 hr1 hs2 hb2 hr2 hkey
    have hd := congrArg String.data hkey
    rw [generateDedupKey_data, generateDedupKey_data] at hd
    exact key_inj_parts hs1 hb1 hr1 hs2 hb2 hr2 hd

def c3recA : ACMExtractionRecord :=
  { baseRecord with building_id := "c", room_id := some "r", material_description := "d" }

def c3recB : ACMExtractionRecord :=
  { baseRecord with building_id := "b_c", room_id := some "r", material_description := "d" }

set_option maxRecDepth 100000 in
/-- C3 counterexample: the tuples differ (school_code "a_b" vs "a",
building_id "c" vs "b_c") yet the dedup keys coincide, refuting
"any difference in the tuple implies different keys". -/
theorem dedup_key_collision_cex :
    generateDedupKey c3recA (some "a_b") = generateDedupKey c3recB (some "a") ∧
    (some "a_b" : Option String) ≠ some "a" ∧ c3recA.building_id ≠ c3recB.building_id := by
  refine ⟨by decide, by decide, by decide⟩

def c3recC : ACMExtractionRecord := { baseRecord with extent := some "Whole ceiling" }

/-- Witness for C3 at concrete records differing only outside the key. -/
theorem dedup_key_spec_witness :
    generateDedupKey baseRecord (some "S1") = generateDedupKey c3recC (some "S1") ∧
    buildingPart baseRecord = buildingPart c3recC := by
  have h1 := (dedup_key_spec baseRecord c3recC (some "S1") (some "S1")).1
    ⟨rfl, rfl, rfl, rfl⟩
  have h2 := (dedup_key_spec baseRecord c3recC (some "S1") (some "S1")).2.2
    (by decide) (by decide) (by decide) (by decide) (by decide) (by decide) h1
  exact ⟨h1, h2.2.1⟩

/-! ## C7 — result normalization -/

theorem normalizeResultAI_fst (res : String) (i j : List String) :
    (normalizeResultAI res i).1 = (normalizeResultAI res j).1 := by
  dsimp only [normalizeResultAI]
  split_ifs <;> rfl

def c7table : List String :=
  ["| Product | Material Description | Result |",
   "|---------|---------------------|--------|",
   "| Tiles | Floor covering | NAD |"]

set_option maxRecDepth 100000 in
/-- C7 counterexample: the pattern parser's row extraction leaves "NAD"
unchanged (its normalization has only the "no asbestos"/"detected" rules),
refuting the claim that the normalization applied there maps "NAD" to
"Not Detected". -/
theorem result_normalization_cex :
    (parseAcmTable c7table defaultParseContext).map (fun r => r.result) = ["NAD"] ∧
    (parseAcmTable c7table defaultParseContext).map (fun r => r.result) ≠ ["Not Detected"] := by
  exact ⟨by decide, by decide⟩

/-- C7 (amended): the parser's row extraction normalizes only
"no asbestos" → "Not Detected" and otherwise "detected" → "Detected",
leaving all other results (including "NAD"/"positive"/"presumed") as-is and
an absent result empty; the AI validator maps results containing
"no asbestos"/"nad"/"not detected" to "Not Detected", else
"detected"/"positive" to "Detected", else "presumed" to "Presumed", the
empty result to "Unknown" with an issue note, and others are left as-is. -/
theorem result_normalization_spec :
    (∀ cells hm ctx row, createRowFromCells cells hm ctx = some row →
        row.result = normalizeResultRow (getCell cells hm.result)) ∧
    (∀ r : String, containsStr (pyLower r) "no asbestos" = true →
        normalizeResultRow (some r) = "Not Detected") ∧
    (∀ r : String, containsStr (pyLower r) "no asbestos" = false →
        containsStr (pyLower r) "detected" = true → normalizeResultRow (some r) = "Detected") ∧
    (∀ r : String, containsStr (pyLower r) "no asbestos" = false →
        containsStr (pyLower r) "detected" = false → normalizeResultRow (some r) = r) ∧
    normalizeResultRow none = "" ∧
    (∀ res i, res ≠ "" →
        (containsStr (pyLower res) "no asbestos" || containsStr (pyLower res) "nad" ||
          containsStr (pyLower res) "not detected") = true →
        normalizeResultAI res i = ("Not Detected", i)) ∧
    (∀ res i, res ≠ "" →
        (containsStr (pyLower res) "no asbestos" || containsStr (pyLower res) "nad" ||
          containsStr (pyLower res) "not detected") = false →
        (containsStr (pyLower res) "detected" || containsStr (pyLower res) "positive") = true →
        normalizeResultAI res i = ("Detected", i)) ∧
    (∀ res i, res ≠ "" →
        (containsStr (pyLower res) "no asbestos" || containsStr (pyLower res) "nad" ||
          containsStr (pyLower res) "not detected") = false →
        (containsStr (pyLower res) "detected" || containsStr (pyLower res) "positive") = false →
        containsStr (pyLower res) "presumed" = true →
        normalizeResultAI res i = ("Presumed", i)) ∧
    (∀ res i, res ≠ "" →
        (containsStr (pyLower res) "no asbestos" || containsStr (pyLower res) "nad" ||
          containsStr (pyLower res) "not detected") = false →
        (containsStr (pyLower res) "detected" || containsStr (pyLower res) "positive") = false →
        containsStr (pyLower res) "presumed" = false →
        normalizeResultAI res i = (res, i)) ∧
    (∀ i, normalizeResultAI "" i = ("Unknown", i ++ ["Result field was empty, set to Unknown"])) ∧
    (∀ ctx record, (validateOne ctx record).1.result = (normalizeResultAI record.result []).1) ∧
    (∀ ctx record, record.result = "" →
        "Result field was empty, set to Unknown" ∈ (validateOne ctx record).1.data_issues) := by
  refine ⟨?_, ?_, ?_, ?_, rfl, ?_, ?_, ?_, ?_, ?_, ?_, ?_⟩
  · intro cells hm ctx row hrow
    cases hp : getCell cells hm.product <;> cases hd : getCell cells hm.material_description <;>
      simp [createRowFromCells, hp, hd] at hrow
    rw [← hrow]
  · intro r h
    simp [normalizeResultRow, h]
  · intro r h1 h2
    simp [normalizeResultRow, h1, h2]
  · intro r h1 h2
    simp [normalizeResultRow, h1, h2]
  · intro res i h1 h2
    have hne : (res != "") = true := by simpa using h1
    simp [normalizeResultAI, hne, h2]
  · intro res i h1 h2 h3
    have hne : (res != "") = true := by simpa using h1
    simp [normalizeResultAI, hne, h2, h3]
  · intro res i h1 h2 h3 h4
    have hne : (res != "") = true := by simpa using h1
    simp [normalizeResultAI, hne, h2, h3, h4]
  · intro res i h1 h2 h3 h4
    have hne : (res != "") = true := by simpa using h1
    simp [normalizeResultAI, hne, h2, h3, h4]
  · intro i
    simp [normalizeResultAI]
  · intro ctx record
    simp only [validateOne]
    exact normalizeResultAI_fst _ _ _
  · intro ctx record h
    have hN : ∀ i, normalizeResultAI "" i =
        ("Unknown", i ++ ["Result field was empty, set to Unknown"]) := fun i => by
      simp [normalizeResultAI]
    dsimp only [validateOne]
    rw [h, hN]
    unfold normalizeConfidence
    split_ifs
    · exact List.mem_append_right _ (List.mem_singleton_self _)
    · exact List.mem_append_left _ (List.mem_append_right _ (List.mem_singleton_self _))

/-- Witness for C7: "NAD" is left as-is by the parser normalization but
mapped to "Not Detected" by the validator normalization. -/
theorem result_normalization_spec_witness :
    normalizeResultRow (some "NAD") = "NAD" ∧
    normalizeResultAI "NAD" [] = ("Not Detected", []) ∧
    normalizeResultAI "positive sample" [] = ("Detected", []) := by
  refine ⟨result_normalization_spec.2.2.2.1 "NAD" (by decide) (by decide),
    result_normalization_spec.2.2.2.2.2.1 "NAD" [] (by decide) (by decide),
    result_normalization_spec.2.2.2.2.2.2.1 "positive sample" [] (by decide) (by decide)
      (by decide)⟩

/-! ## C9 — validator guardrails -/

theorem countP_add_countP_not {α : Type} (p : α → Bool) (l : List α) :
    l.countP p + l.countP (fun x => !p x) = l.length := by
  induction l with
  | nil => rfl
  | cons a t ih =>
    cases h : p a <;> simp [List.countP_cons, h, ← ih] <;> omega

theorem optTruthy_getD_ne {c : Option String} (h : optTruthy c = true) : c.getD "" ≠ "" := by
  cases c with
  | none => simp [optTruthy] at h
  | some s => simpa [optTruthy] using h

theorem fillBuildingId_pos {c : BuildingRoomContext} {b : String} {i : List String}
    (hb : b = "") (ht : optTruthy c.building_id = true) :
    fillBuildingId c b i =
      (c.building_id.getD "", i ++ ["Building ID inferred from context"]) := by
  subst hb
  simp [fillBuildingId, ht]

theorem fillBuildingId_fst_empty_iff (c : BuildingRoomContext) (b : String) (i : List String) :
    (fillBuildingId c b i).1 = "" ↔ b = "" ∧ optTruthy c.building_id = false := by
  unfold fillBuildingId
  by_cases hb : b = ""
  · subst hb
    cases ht : optTruthy c.building_id
    · simp [ht]
    · simp [ht, optTruthy_getD_ne ht]
  · simp [hb]

theorem mem_normalizeResultAI {x : String} {res : String} {i : List String} (h : x ∈ i) :
    x ∈ (normalizeResultAI res i).2 := by
  dsimp only [normalizeResultAI]
  split_ifs <;> simp [h]

theorem mem_normalizeConfidence {x : String} {c : String} {i : List String} (h : x ∈ i) :
    x ∈ (normalizeConfidence c i).2 := by
  unfold normalizeConfidence
  split_ifs <;> simp [h]

/-- C9: a record with empty `building_id` gets it filled from a truthy
context (with the inference issue added) and survives when `product` and
`material_description` are present; a record is rejected exactly when it
still lacks `building_id` (no truthy context), `product`, or
`material_description`; `validate_records` counts rejections and never
raises. -/
theorem validate_records_spec (ctx : BuildingRoomContext) (r : ACMExtractionRecord)
    (records : List ACMExtractionRecord) :
    (r.building_id = "" → optTruthy ctx.building_id = true →
      (validateOne ctx r).1.building_id = ctx.building_id.getD "" ∧
      "Building ID inferred from context" ∈ (validateOne ctx r).1.data_issues) ∧
    (r.building_id = "" → optTruthy ctx.building_id = true → r.product ≠ "" →
      r.material_description ≠ "" → (validateOne ctx r).2 = true) ∧
    ((validateOne ctx r).2 = false ↔
      ((r.building_id = "" ∧ optTruthy ctx.building_id = false) ∨ r.product = "" ∨
        r.material_description = "")) ∧
    ((validateRecords records ctx).2 =
      (records.filter fun x => !(validateOne ctx x).2).length ∧
     (validateRecords records ctx).1.length + (validateRecords records ctx).2 =
      records.length ∧
     (validateRecords records ctx).1 =
      (records.filter fun x => (validateOne ctx x).2).map fun x => (validateOne ctx x).1) := by
  refine ⟨?_, ?_, ?_, ?_⟩
  · intro hb ht
    constructor
    · show (validateOne ctx r).1.building_id = _
      dsimp only [validateOne]
      rw [fillBuildingId_pos hb ht]
    · show _ ∈ (validateOne ctx r).1.data_issues
      dsimp only [validateOne]
      rw [fillBuildingId_pos hb ht]
      exact mem_normalizeConfidence (mem_normalizeResultAI
        (List.mem_append_right _ (List.mem_singleton_self _)))
  · intro hb ht hp hm
    dsimp only [validateOne]
    rw [fillBuildingId_pos hb ht]
    have h1 : (ctx.building_id.getD "" == "") = false :=
      beq_eq_false_iff_ne.mpr (optTruthy_getD_ne ht)
    have h2 : (r.product == "") = false := beq_eq_false_iff_ne.mpr hp
    have h3 : (r.material_description == "") = false := beq_eq_false_iff_ne.mpr hm
    simp [h1, h2, h3]
  · dsimp only [validateOne]
    simp only [Bool.not_eq_false', Bool.or_eq_true, beq_iff_eq,
      fillBuildingId_fst_empty_iff, or_assoc]
  · cases records with
    | nil => simp [validateRecords]
    | cons a l =>
      have hne : ((a :: l).isEmpty) = false := rfl
      refine ⟨?_, ?_, ?_⟩
      · simp only [validateRecords, hne, Bool.false_eq_true, if_false]
        rw [List.countP_map, List.countP_eq_length_filter]
        rfl
      · simp only [validateRecords, hne, Bool.false_eq_true, if_false]
        rw [List.length_map, ← List.countP_eq_length_filter, List.countP_map, List.countP_map]
        exact countP_add_countP_not (fun x => (validateOne ctx x).2) (a :: l)
      · simp only [validateRecords, hne, Bool.false_eq_true, if_false]
        rw [List.filter_map, List.map_map]
        rfl

/-- Witness for C9 on concrete records: the context fills a missing
building id (with the issue note, surviving validation), and a record with
an empty product is rejected and counted. -/
theorem validate_records_spec_witness :
    (validateOne { defaultBRContext with building_id := some "B7" }
        { baseRecord with building_id := "" }).1.building_id = "B7" ∧
    "Building ID inferred from context" ∈
      (validateOne { defaultBRContext with building_id := some "B7" }
        { baseRecord with building_id := "" }).1.data_issues ∧
    (validateOne { defaultBRContext with building_id := some "B7" }
        { baseRecord with building_id := "" }).2 = true ∧
    (validateRecords [{ baseRecord with product := "" }] defaultBRContext).2 = 1 := by
  have h := validate_records_spec { defaultBRContext with building_id := some "B7" }
    { baseRecord with building_id := "" } [{ baseRecord with product := "" }]
  have h1 := h.1 rfl (by decide)
  refine ⟨h1.1.trans (by decide), h1.2, h.2.1 rfl (by decide) (by decide) (by decide), ?_⟩
  have h4 := (validate_records_spec defaultBRContext baseRecord
    [{ baseRecord with product := "" }]).2.2.2.1
  exact h4.trans (by decide)

/-! ## C2 — extraction retry with backoff -/

/-- C2: while the chunk guard passes, a schema-validation or transport
failure with `retry_count < 3` sleeps `RETRY_DELAYS[retry_count]` seconds
(1s/2s/4s, capped at 4s beyond the table), increments `retry_count`, clears
the error, keeps the chunk index (so the same chunk is retried, at sampling
temperature 0.1 < the initial 0.3), and the router sends the state back to
"extract"; a success resets `retry_count` to 0 and advances the index; a
failure at `retry_count = 3` sets a fatal error, the router returns
"error", and the run status becomes "failed". -/
theorem extract_retry_spec (st : ExtractState) (msg : String)
    (hidx : st.current_chunk_index < st.chunks.length) :
    (RETRY_DELAYS = [1, 2, 4] ∧ retryDelay 0 = 1 ∧ retryDelay 1 = 2 ∧ retryDelay 2 = 4 ∧
      ∀ k, 3 ≤ k → retryDelay k = 4) ∧
    (extractTemperature 0 = 0.3 ∧ ∀ k, 0 < k → extractTemperature k = 0.1 ∧
      extractTemperature k < extractTemperature 0) ∧
    (∀ o, (o = ChunkOutcome.invalidOutput msg ∨ o = ChunkOutcome.transportError msg) →
      st.retry_count < MAX_RETRIES →
      (extractStep st o).2 = some (retryDelay st.retry_count) ∧
      (extractStep st o).1.retry_count = st.retry_count + 1 ∧
      (extractStep st o).1.current_chunk_index = st.current_chunk_index ∧
      (extractStep st o).1.error = none ∧
      shouldContinueExtraction (extractStep st o).1 = "extract") ∧
    (∀ res, (extractStep st (ChunkOutcome.ok res)).1.retry_count = 0 ∧
      (extractStep st (ChunkOutcome.ok res)).1.current_chunk_index =
        st.current_chunk_index + 1 ∧
      (extractStep st (ChunkOutcome.ok res)).1.records =
        st.records ++ (updateStats res).records) ∧
    (∀ o, (o = ChunkOutcome.invalidOutput msg ∨ o = ChunkOutcome.transportError msg) →
      st.retry_count = MAX_RETRIES →
      (extractStep st o).1.error.isSome = true ∧
      shouldContinueExtraction (extractStep st o).1 = "error" ∧
      ∀ t, finalRunStatus (extractStep st o).1.error t = "failed") := by
  have hguard : (st.chunks.isEmpty || st.chunks.length ≤ st.current_chunk_index) = false := by
    have h1 : st.chunks.isEmpty = false := by
      cases hc : st.chunks with
      | nil => rw [hc] at hidx; simp at hidx
      | cons a l => rfl
    simp [h1, hidx, Nat.not_le.mpr hidx]
  refine ⟨⟨rfl, rfl, rfl, rfl, ?_⟩, ⟨rfl, ?_⟩, ?_, ?_, ?_⟩
  · intro k hk
    unfold retryDelay RETRY_DELAYS
    rw [if_neg (by simpa using hk)]
    rfl
  · intro k hk
    refine ⟨by simp [extractTemperature, hk], ?_⟩
    simp only [extractTemperature, if_pos hk, if_neg (lt_irrefl 0)]
    norm_num
  · rintro o (rfl | rfl) hlt <;>
    · have hlt3 : st.retry_count < 3 := hlt
      have hle3 : st.retry_count + 1 ≤ 3 := hlt3
      refine ⟨?_, ?_, ?_, ?_, ?_⟩ <;>
        simp [extractStep, hguard, shouldContinueExtraction, hlt3, hle3, MAX_RETRIES]
  · intro res
    refine ⟨?_, ?_, ?_⟩ <;> simp [extractStep, hguard]
  · rintro o (rfl | rfl) heq <;>
    · have h3 : st.retry_count = 3 := heq
      refine ⟨?_, ?_, ?_⟩ <;>
        simp [extractStep, hguard, shouldContinueExtraction, finalRunStatus, h3, MAX_RETRIES]

/-- `ACMExtractionResult()` with its pydantic defaults. -/
def emptyExtractionResult : ACMExtractionResult :=
  { records := [], status := .valid, total_records := 0, records_rejected := 0,
    confidence_distribution := emptyDist, extraction_notes := none }

def c2state : ExtractState :=
  { chunks := [{ content := "chunk", page_number := 1, chunk_index := 0 }],
    current_chunk_index := 0, context := defaultBRContext, records := [],
    extraction_result := emptyExtractionResult, error := none, retry_count := 1 }

/-- Witness for C2: at `retry_count = 1` a validation failure sleeps 2s,
moves to `retry_count = 2`, and the router retries the same chunk. -/
theorem extract_retry_spec_witness :
    (extractStep c2state (ChunkOutcome.invalidOutput "bad schema")).2 = some 2 ∧
    (extractStep c2state (ChunkOutcome.invalidOutput "bad schema")).1.retry_count = 2 ∧
    (extractStep c2state (ChunkOutcome.invalidOutput "bad schema")).1.current_chunk_index = 0 ∧
    shouldContinueExtraction (extractStep c2state (ChunkOutcome.invalidOutput "bad schema")).1 =
      "extract" := by
  have h := (extract_retry_spec c2state "bad schema" (by decide)).2.2.1
    (ChunkOutcome.invalidOutput "bad schema") (Or.inl rfl) (by decide)
  exact ⟨h.1.trans (by decide), h.2.1.trans (by decide), h.2.2.1.trans (by decide), h.2.2.2.2⟩

/-! ## C1 — SAVE stage -/

def savedCountOf (records : List ACMExtractionRecord) (saveFails : Nat → Option String) : Nat :=
  (List.range records.length).countP fun i => (saveFails i).isNone

theorem containsStr_append_right (p e : String) : containsStr (p ++ e) e = true := by
  have hself : ∀ l : List Char, startsWithL l l = true := by
    intro l
    induction l with
    | nil => rfl
    | cons c t ih => simp [startsWithL, ih]
  have hsuffix : ∀ l : List Char, containsAux e.data (l ++ e.data) = true := by
    intro l
    induction l with
    | nil =>
      cases he : e.data with
      | nil => simp [containsAux, he]
      | cons c t => simp [containsAux, ← he, hself]
    | cons c t ih => simp [containsAux, ih]
  show containsAux e.data (p ++ e).data = true
  have : (p ++ e).data = p.data ++ e.data := rfl
  rw [this]
  exact hsuffix p.data

theorem length_filterMap_eq_countP {α β : Type} (f : α → Option β) (l : List α) :
    (l.filterMap f).length = l.countP fun a => (f a).isSome := by
  induction l with
  | nil => rfl
  | cons a t ih =>
    cases h : f a <;> simp [List.filterMap_cons, h, List.countP_cons, ih]

/-- C1 (amended): the SAVE stage attempts every record (saves plus failures
partition the batch), sets status `no_acm_data` exactly when zero records
were saved and `valid` whenever at least one record was saved, reports
`total_records` equal to the number of records passed to SAVE
(`update_stats` overwrites the saved count — the claim's
"total_records = number of successfully saved records" is refuted by
`save_records_total_cex`), and when at least one save failed the error
summary contains the first error message. -/
theorem save_records_spec (records : List ACMExtractionRecord) (rejected : Nat)
    (saveFails : Nat → Option String) :
    ((saveRecords records rejected saveFails).1.status = ExtractionStatus.no_acm_data ↔
      savedCountOf records saveFails = 0) ∧
    (0 < savedCountOf records saveFails →
      (saveRecords records rejected saveFails).1.status = ExtractionStatus.valid) ∧
    (saveRecords records rejected saveFails).1.total_records = records.length ∧
    (savedCountOf records saveFails +
      ((List.range records.length).filterMap saveFails).length = records.length) ∧
    (∀ e es, (List.range records.length).filterMap saveFails = e :: es →
      ∃ s, (saveRecords records rejected saveFails).2 = some s ∧ containsStr s e = true) ∧
    ((List.range records.length).filterMap saveFails = [] →
      (saveRecords records rejected saveFails).2 = none) := by
  cases records with
  | nil =>
    refine ⟨by simp [saveRecords, savedCountOf], by intro h; simp [savedCountOf] at h,
      by simp [saveRecords], by simp [savedCountOf], ?_, by simp [saveRecords]⟩
    intro e es h
    simp at h
  | cons a l =>
    have hsc : savedCountOf (a :: l) saveFails =
        (List.range (a :: l).length).countP (fun i => (saveFails i).isNone) := rfl
    have h1 : (saveRecords (a :: l) rejected saveFails).1 =
        updateStats
          { records := a :: l,
            status := if 0 < (List.range (a :: l).length).countP (fun i => (saveFails i).isNone)
                      then .valid else .no_acm_data,
            total_records := (List.range (a :: l).length).countP (fun i => (saveFails i).isNone),
            records_rejected := rejected, confidence_distribution := emptyDist,
            extraction_notes := none } := by
      simp only [saveRecords, List.isEmpty_cons, Bool.false_eq_true, if_false]
      split <;> rfl
    refine ⟨?_, ?_, ?_, ?_, ?_, ?_⟩
    · rw [h1, hsc]
      dsimp only [updateStats]
      by_cases h0 : (List.range (a :: l).length).countP (fun i => (saveFails i).isNone) = 0
      · simp [h0]
      · simp only [Nat.pos_of_ne_zero h0, if_pos]
        constructor
        · intro hx
          cases hx
        · intro hx
          exact absurd hx h0
    · intro hpos
      rw [hsc] at hpos
      rw [h1]
      dsimp only [updateStats]
      rw [if_pos hpos]
    · rw [h1]
      rfl
    · rw [hsc, length_filterMap_eq_countP]
      have hcong : (List.range (a :: l).length).countP (fun i => (saveFails i).isSome) =
          (List.range (a :: l).length).countP (fun i => !(saveFails i).isNone) :=
        List.countP_congr fun i _ => by cases saveFails i <;> rfl
      rw [hcong, countP_add_countP_not, List.length_range]
    · intro e es hfm
      refine ⟨"Saved " ++
          toString ((List.range (a :: l).length).countP fun i => (saveFails i).isNone) ++
          " records, " ++ toString (e :: es).length ++ " failed: " ++ e,
        ?_, containsStr_append_right _ e⟩
      simp only [saveRecords, List.isEmpty_cons, Bool.false_eq_true, if_false]
      rw [hfm]
    · intro h
      simp only [saveRecords, List.isEmpty_cons, Bool.false_eq_true, if_false]
      rw [h]

/-- Save outcomes where only the second record's save raises. -/
def c1fails : Nat → Option String := fun i => if i = 1 then some "db down" else none

/-- C1 counterexample: with two records of which one save fails, the final
result's `total_records` is 2 (the record count) while only 1 record was
saved — `update_stats` overwrites the saved count, refuting
"total_records equals the number of successfully saved records". -/
theorem save_records_total_cex :
    (saveRecords [baseRecord, { baseRecord with product := "Lagging" }] 0
        c1fails).1.total_records = 2 ∧
    savedCountOf [baseRecord, { baseRecord with product := "Lagging" }] c1fails = 1 ∧
    (2 : Nat) ≠ 1 := by
  exact ⟨by decide, by decide, by decide⟩

/-- Witness for C1: with one of two saves failing, the status is `valid`
and the error summary contains the first error message. -/
theorem save_records_spec_witness :
    (∃ s, (saveRecords [baseRecord, { baseRecord with product := "Lagging" }] 0 c1fails).2 =
        some s ∧ containsStr s "db down" = true) ∧
    (saveRecords [baseRecord, { baseRecord with product := "Lagging" }] 0
        c1fails).1.status = ExtractionStatus.valid :=
  ⟨(save_records_spec [baseRecord, { baseRecord with product := "Lagging" }] 0
      c1fails).2.2.2.2.1 "db down" [] (by decide),
   (save_records_spec [baseRecord, { baseRecord with product := "Lagging" }] 0
      c1fails).2.1 (by decide)⟩

/-! ## C8 — chunker contract -/

theorem charWindowsAux_length_le (cs : List Char) (k o : Nat) :
    ∀ fuel s p (acc : List Chunk), acc.length ≤ (charWindowsAux cs k o fuel s p acc).length := by
  intro fuel
  induction fuel with
  | zero => intro s p acc; simp [charWindowsAux]
  | succ f ih =>
    intro s p acc
    by_cases h : s < cs.length
    · simp only [charWindowsAux, if_pos h]
      refine le_trans ?_ (ih _ _ _)
      simp
    · simp [charWindowsAux, if_neg h]

theorem splitBySections_ne_nil (tc : String → Nat) (content : String) (maxTokens : Nat) :
    splitBySections tc content maxTokens ≠ [] := by
  dsimp only [splitBySections]
  split
  · simp
  · next hout =>
    intro h2
    rw [h2] at hout
    exact hout rfl

theorem buildPageChunks_length_le (tc : String → Nat) (th : Nat) :
    ∀ slices (acc : List Chunk), acc.length ≤ (buildPageChunks tc th slices acc).length := by
  intro slices
  induction slices with
  | nil => intro acc; simp [buildPageChunks]
  | cons s rest ih =>
    intro acc
    obtain ⟨slice, num⟩ := s
    simp only [buildPageChunks]
    refine le_trans ?_ (ih _)
    split <;> simp

theorem buildPageChunks_cons_length (tc : String → Nat) (th : Nat) (slice : List Char)
    (num : Nat) (rest : List (List Char × Nat)) (acc : List Chunk) :
    acc.length + 1 ≤ (buildPageChunks tc th ((slice, num) :: rest) acc).length := by
  simp only [buildPageChunks]
  refine le_trans ?_ (buildPageChunks_length_le _ _ _ _)
  split
  · have hpos := List.length_pos.mpr (splitBySections_ne_nil tc ⟨slice⟩ th)
    simp only [List.length_append, List.length_map, List.enum_length]
    omega
  · simp

/-- C8: a non-empty text whose estimated tokens are at most half the
context window yields exactly one chunk equal to the whole input with
page_number 1 and chunk_index 0; and for every non-empty input the chunk
sequence (at the default context window used by the pipeline) is never
empty. -/
theorem chunk_content_spec (tc : String → Nat) (content : String) (cw : Nat) :
    (content ≠ "" → 2 * tc content ≤ cw →
      chunkContent tc content cw =
        [{ content := content, page_number := 1, chunk_index := 0 }]) ∧
    (content ≠ "" → chunkContent tc content DEFAULT_CONTEXT_WINDOW ≠ []) := by
  constructor
  · intro _ h2
    have hle : tc content ≤ cw / 2 := (Nat.le_div_iff_mul_le (by norm_num)).mpr (by omega)
    simp [chunkContent, hle]
  · intro hne
    have hcs : content.data ≠ [] := by
      intro h
      exact hne (string_eq_of_data h)
    by_cases hth : tc content ≤ DEFAULT_CONTEXT_WINDOW / 2
    · simp [chunkContent, hth]
    · cases hm : findPageMarkers content with
      | nil =>
        simp only [chunkContent, if_neg hth, hm]
        intro hnil
        have hpos : 0 < content.data.length := List.length_pos.mpr hcs
        have h1 : (1 : Nat) ≤
            (charWindowsAux content.data (DEFAULT_CONTEXT_WINDOW / 2 * 4) 500
              (content.data.length + 1) 0 1 []).length := by
          simp only [charWindowsAux, if_pos hpos]
          refine le_trans ?_ (charWindowsAux_length_le _ _ _ _ _ _ _)
          rw [List.nil_append]
          exact le_of_eq (List.length_singleton _).symm
        rw [hnil] at h1
        simp at h1
      | cons m ms =>
        obtain ⟨p, n⟩ := m
        simp only [chunkContent, if_neg hth, hm]
        intro hnil
        have h1 : (0 : Nat) + 1 ≤
            (buildPageChunks tc (DEFAULT_CONTEXT_WINDOW / 2)
              (pageSlices content.data ((p, n) :: ms)) []).length :=
          buildPageChunks_cons_length tc _ _ n (pageSlices content.data ms) []
        rw [hnil] at h1
        simp at h1

/-- A concrete chars/4 token estimator (the `CHARS_PER_TOKEN_ESTIMATE`
heuristic) used to instantiate chunker theorems. -/
def tcLen4 : String → Nat := fun s => s.data.length / 4

/-- Witness for C8 at a concrete input. -/
theorem chunk_content_spec_witness :
    chunkContent tcLen4 "short doc" 1000 =
      [{ content := "short doc", page_number := 1, chunk_index := 0 }] ∧
    chunkContent tcLen4 "short doc" DEFAULT_CONTEXT_WINDOW ≠ [] :=
  ⟨(chunk_content_spec tcLen4 "short doc" 1000).1 (by decide) (by decide),
   (chunk_content_spec tcLen4 "short doc" DEFAULT_CONTEXT_WINDOW).2 (by decide)⟩

/-! ## C5 — building/room header context updates -/

set_option maxRecDepth 100000 in
/-- C5 (code bug evidence): a bare building header such as "## B1 - Block A"
also matches `ROOM_PATTERN`, so right after the building branch's reset the
room branch sets `room_id`/`room_name` from the same line instead of
leaving them empty; conversely a bare room header such as
"#### B01-R001 - Storage Room" also matches `BUILDING_PATTERN` and
rewrites `building_name`/`building_construction`.  This contradicts the
source's own "Reset room and area_type when building changes" comment and
the spec's invariant. -/
theorem header_overlap_code_bug :
    matchBuilding "## B1 - Block A" = some ("B1", "Block A", none, none) ∧
    (processLine defaultParseContext "## B1 - Block A").room_id = some "B1" ∧
    (processLine defaultParseContext "## B1 - Block A").room_name = some "Block A" ∧
    (processLine defaultParseContext "## B1 - Block A").building_id = "B1" ∧
    matchRoom "#### B01-R001 - Storage Room" = some ("B01-R001", "Storage Room", none) ∧
    (processLine (processLine defaultParseContext "## Building: B01 - Block A")
        "#### B01-R001 - Storage Room").building_name = some "R001" ∧
    (processLine (processLine defaultParseContext "## Building: B01 - Block A")
        "#### B01-R001 - Storage Room").building_construction = some "Storage Room" ∧
    (processLine (processLine defaultParseContext "## Building: B01 - Block A")
        "#### Room: B01-R001 - Office").building_name = some "Block A" := by
  refine ⟨by decide, by decide, by decide, by decide, by decide, by decide, by decide, by decide⟩

/-! ## C6 — kept table rows -/

/-- The invariant carried along `_create_header_map`'s fold: assigned
product/material indices are below the running enumeration index and
distinct from each other. -/
def HMInv (n : Nat) (m : HeaderMap) : Prop :=
  (∀ i, m.product = some i → i < n) ∧ (∀ j, m.material_description = some j → j < n) ∧
  (∀ i j, m.product = some i → m.material_description = some j → i ≠ j)

theorem HMInv.bump {n : Nat} {m : HeaderMap} (h : HMInv n m) : HMInv (n + 1) m :=
  ⟨fun i hi => Nat.lt_succ_of_lt (h.1 i hi), fun j hj => Nat.lt_succ_of_lt (h.2.1 j hj), h.2.2⟩

theorem HMInv.setProduct {n : Nat} {m : HeaderMap} (h : HMInv n m) :
    HMInv (n + 1) { m with product := some n } := by
  refine ⟨fun i hi => ?_, fun j hj => Nat.lt_succ_of_lt (h.2.1 j hj), fun i j hi hj => ?_⟩
  · cases hi
    exact Nat.lt_succ_self n
  · cases hi
    exact fun he => absurd (he ▸ h.2.1 j hj) (lt_irrefl _)

theorem HMInv.setMaterial {n : Nat} {m : HeaderMap} (h : HMInv n m) :
    HMInv (n + 1) { m with material_description := some n } := by
  refine ⟨fun i hi => Nat.lt_succ_of_lt (h.1 i hi), fun j hj => ?_, fun i j hi hj => ?_⟩
  · cases hj
    exact Nat.lt_succ_self n
  · cases hj
    exact fun he => absurd (he ▸ h.1 i hi) (lt_irrefl _)

theorem updateHeaderMap_inv {n : Nat} {m : HeaderMap} (h : HMInv n m) (s : String) :
    HMInv (n + 1) (updateHeaderMap m (n, s)) := by
  dsimp only [updateHeaderMap]
  split_ifs <;>
    first
      | exact h.setProduct
      | exact h.setMaterial
      | exact h.bump

theorem foldl_enumFrom_inv (hs : List String) :
    ∀ (n : Nat) (m : HeaderMap), HMInv n m →
      HMInv (n + hs.length) ((List.enumFrom n hs).foldl updateHeaderMap m) := by
  induction hs with
  | nil => intro n m h; simpa using h
  | cons a t ih =>
    intro n m h
    have h2 := ih (n + 1) (updateHeaderMap m (n, a)) (updateHeaderMap_inv h a)
    rw [show n + (a :: t).length = n + 1 + t.length by simp; omega]
    exact h2

theorem createHeaderMap_distinct (headers : List String) :
    ∀ i j, (createHeaderMap headers).product = some i →
      (createHeaderMap headers).material_description = some j → i ≠ j := by
  have h0 : HMInv 0 emptyHeaderMap := by
    refine ⟨fun i hi => ?_, fun j hj => ?_, fun i j hi hj => ?_⟩
    · cases hi
    · cases hj
    · cases hi
  exact (foldl_enumFrom_inv headers 0 emptyHeaderMap h0).2.2

theorem getCell_lt_length {cells : List String} {idx : Option Nat} {v : String}
    (h : getCell cells idx = some v) : ∃ i, idx = some i ∧ i < cells.length := by
  unfold getCell at h
  cases idx with
  | none => cases h
  | some i =>
    dsimp only at h
    by_cases hi : i < cells.length
    · exact ⟨i, rfl, hi⟩
    · rw [if_neg hi] at h
      cases h

theorem getCell_ne_empty {cells : List String} {idx : Option Nat} {v : String}
    (h : getCell cells idx = some v) : v ≠ "" := by
  unfold getCell at h
  cases idx with
  | none => cases h
  | some i =>
    dsimp only at h
    by_cases hi : i < cells.length
    · rw [if_pos hi] at h
      by_cases hv : pyStrip (cells.getD i "") = ""
      · rw [if_pos hv] at h
        cases h
      · rw [if_neg hv] at h
        cases h
        exact hv
    · rw [if_neg hi] at h
      cases h

theorem two_cells_of_both {cells : List String} {hm : HeaderMap} {p d : String}
    (hinj : ∀ i j, hm.product = some i → hm.material_description = some j → i ≠ j)
    (hp : getCell cells hm.product = some p)
    (hd : getCell cells hm.material_description = some d) : 2 ≤ cells.length := by
  obtain ⟨i, hi, hilt⟩ := getCell_lt_length hp
  obtain ⟨j, hj, hjlt⟩ := getCell_lt_length hd
  have := hinj i j hi hj
  omega

theorem createRow_cases (cells : List String) (hm : HeaderMap) (ctx : ParseContext) :
    (∃ p d row, getCell cells hm.product = some p ∧
      getCell cells hm.material_description = some d ∧
      createRowFromCells cells hm ctx = some row ∧ row.product = p) ∨
    ((getCell cells hm.product = none ∨ getCell cells hm.material_description = none) ∧
      createRowFromCells cells hm ctx = none) := by
  unfold createRowFromCells
  cases hp : getCell cells hm.product with
  | none =>
    cases hd : getCell cells hm.material_description with
    | none => exact Or.inr ⟨Or.inl rfl, rfl⟩
    | some d => exact Or.inr ⟨Or.inl rfl, rfl⟩
  | some p =>
    cases hd : getCell cells hm.material_description with
    | none => exact Or.inr ⟨Or.inr rfl, rfl⟩
    | some d => exact Or.inl ⟨p, d, _, rfl, rfl, rfl, rfl⟩

/-- The per-line keep condition of the claim: a non-separator data line with
non-empty product and material_description cells (after trimming). -/
def keepLine (hm : HeaderMap) (line : String) : Bool :=
  !containsStr line "---" &&
  (getCell (stripEdges ((pySplitPipe line).map pyStrip)) hm.product).isSome &&
  (getCell (stripEdges ((pySplitPipe line).map pyStrip)) hm.material_description).isSome

theorem rowOf_length {hm : HeaderMap} (ctx : ParseContext) (line : String)
    (hinj : ∀ i j, hm.product = some i → hm.material_description = some j → i ≠ j) :
    (rowOf hm ctx line).length = if keepLine hm line then 1 else 0 := by
  unfold rowOf keepLine
  cases hdash : containsStr line "---" with
  | true => simp
  | false =>
    simp only [Bool.not_false, Bool.true_and, if_false, Bool.false_eq_true]
    rcases createRow_cases (stripEdges ((pySplitPipe line).map pyStrip)) hm ctx with
      ⟨p, d, row, hp, hd, hrow, hprod⟩ | ⟨hnone, hrow⟩
    · have hlen := two_cells_of_both hinj hp hd
      rw [if_neg (by omega), hrow]
      dsimp only
      have hpne : row.product ≠ "" := hprod ▸ getCell_ne_empty hp
      rw [if_neg hpne, if_pos (by simp [hp, hd])]
      rfl
    · by_cases hlen : (stripEdges ((pySplitPipe line).map pyStrip)).length < 2
      · rw [if_pos hlen, if_neg ?_]
        · rfl
        · rcases hnone with hn | hn <;> simp [hn]
      · rw [if_neg hlen, hrow, if_neg ?_]
        · rfl
        · rcases hnone with hn | hn <;> simp [hn]

theorem foldl_append_flatMap {α β : Type} (f : α → List β) :
    ∀ (l : List α) (acc : List β),
      l.foldl (fun rows x => rows ++ f x) acc = acc ++ l.flatMap f := by
  intro l
  induction l with
  | nil => intro acc; simp
  | cons a t ih => intro acc; simp [List.foldl_cons, ih, List.flatMap_cons]

theorem length_flatMap_eq_length_filter {α β : Type} (f : α → List β) (p : α → Bool)
    (h : ∀ x, (f x).length = if p x then 1 else 0) :
    ∀ l : List α, (l.flatMap f).length = (l.filter p).length := by
  intro l
  induction l with
  | nil => rfl
  | cons a t ih =>
    rw [List.flatMap_cons, List.length_append, ih, List.filter_cons]
    cases hp : p a
    · rw [h a, hp]
      simp
    · rw [h a, hp]
      simp [Nat.add_comm]

set_option maxRecDepth 100000 in
/-- C6: for a table that passes the ACM-header check, the extracted rows
are exactly the data lines (the lines after the header that the parser does
not treat as separators, i.e. not containing "---") whose product and
material_description cells are non-empty after trimming: the row count
equals the count of such lines, and a line's row survives iff both required
cells are present. -/
theorem parse_table_row_filter (tl : List String) (ctx : ParseContext)
    (hlen : 2 ≤ tl.length)
    (hacm : acmHeadersPresent (headerCells (tl.getD 0 "")) = true) :
    (parseAcmTable tl ctx).length =
      ((tl.drop 1).filter (keepLine (createHeaderMap (headerCells (tl.getD 0 ""))))).length ∧
    (∀ l, (createRowFromCells (stripEdges ((pySplitPipe l).map pyStrip))
        (createHeaderMap (headerCells (tl.getD 0 ""))) ctx).isSome = true ↔
      ((getCell (stripEdges ((pySplitPipe l).map pyStrip))
          (createHeaderMap (headerCells (tl.getD 0 ""))).product).isSome = true ∧
        (getCell (stripEdges ((pySplitPipe l).map pyStrip))
          (createHeaderMap (headerCells (tl.getD 0 ""))).material_description).isSome = true)) := by
  have hinj := createHeaderMap_distinct (headerCells (tl.getD 0 ""))
  constructor
  · match tl, hlen with
    | a :: b :: rest, _ =>
      have hnotlt : ¬((a :: b :: rest).length < 2) := by simp
      simp only [parseAcmTable, if_neg hnotlt, hacm, Bool.not_true, Bool.false_eq_true,
        if_false]
      rw [foldl_append_flatMap, List.nil_append]
      by_cases hsep : 2 < (a :: b :: rest).length ∧
          containsStr ((a :: b :: rest).getD 1 "") "---" = true
      · have hb2 : containsStr b "---" = true := hsep.2
        rw [if_pos ((Bool.and_eq_true _ _).mpr ⟨decide_eq_true hsep.1, hsep.2⟩)]
        rw [length_flatMap_eq_length_filter _ _ (fun x => rowOf_length ctx x hinj)]
        have hb : keepLine (createHeaderMap (headerCells ((a :: b :: rest).getD 0 ""))) b
            = false := by
          unfold keepLine
          rw [hb2]
          rfl
        rw [show (a :: b :: rest).drop 1 = b :: rest from rfl, List.filter_cons, hb]
        rw [if_neg (by simp)]
        rfl
      · rw [if_neg fun hc => hsep ⟨of_decide_eq_true ((Bool.and_eq_true _ _).mp hc).1,
          ((Bool.and_eq_true _ _).mp hc).2⟩]
        exact length_flatMap_eq_length_filter _ _ (fun x => rowOf_length ctx x hinj) _
  · intro l
    rcases createRow_cases (stripEdges ((pySplitPipe l).map pyStrip))
        (createHeaderMap (headerCells (tl.getD 0 ""))) ctx with
      ⟨p, d, row, hp, hd, hrow, _⟩ | ⟨hnone, hrow⟩
    · rw [hrow, hp, hd]
      simp
    · rcases hnone with hn | hn <;> rw [hrow, hn] <;> simp

/-- Witness for C6 at a concrete three-line table: two of three data rows
are kept (one lacks its material_description cell). -/
theorem parse_table_row_filter_witness :
    (parseAcmTable
      ["| Product | Material Description | Result |",
       "|---|---|---|",
       "| Tiles | Vinyl | Detected |",
       "| Lagging | | Detected |",
       "| Board | AC sheet | Presumed |"] defaultParseContext).length = 2 := by
  have h := (parse_table_row_filter
    ["| Product | Material Description | Result |",
     "|---|---|---|",
     "| Tiles | Vinyl | Detected |",
     "| Lagging | | Detected |",
     "| Board | AC sheet | Presumed |"] defaultParseContext (by decide) (by decide)).1
  exact h.trans (by decide)


/-! ## C10 — page-marker branch chunk positions -/

/-- The concatenation of the character data of a list of strings. -/
def joinChars (ss : List String) : List Char := ss.flatMap String.data

theorem drop_length_takeWhile {α : Type} (p : α → Bool) (l : List α) :
    l.drop (l.takeWhile p).length = l.dropWhile p := by
  induction l with
  | nil => rfl
  | cons a t ih =>
    rw [List.takeWhile_cons, List.dropWhile_cons]
    cases hp : p a <;> simp [hp, ih]

theorem takeWhile_append_drop {α : Type} (p : α → Bool) (l : List α) :
    l.takeWhile p ++ l.drop (l.takeWhile p).length = l := by
  rw [drop_length_takeWhile]
  exact List.takeWhile_append_dropWhile p l

theorem matchHeader_eq {l sep rest : List Char}
    (h : matchHeader l = some (sep, rest)) : sep ++ rest = l := by
  dsimp only [matchHeader] at h
  split at h
  · exact Option.noConfusion h
  · split at h
    · exact Option.noConfusion h
    · split at h
      · injection h with h
        injection h with h1 h2
        subst h1
        subst h2
        rw [List.append_assoc, List.append_assoc, takeWhile_append_drop,
          takeWhile_append_drop, takeWhile_append_drop]
      · rename_i heq
        split at h
        · exact Option.noConfusion h
        · rename_i k hk
          injection h with h
          injection h with h1 h2
          subst h1
          subst h2
          have hwr := takeWhile_append_drop pyIsSpace
            (l.drop (l.takeWhile (· = '#')).length)
          rw [heq, List.append_nil] at hwr
          rw [List.append_assoc, List.append_assoc, ← List.drop_drop,
            takeWhile_append_drop, List.take_append_drop, hwr, takeWhile_append_drop]

theorem findNextHeader_eq (l : List Char) : ∀ (b : Bool) (pre sep rest : List Char),
    findNextHeader l b = some (pre, sep, rest) → pre ++ sep ++ rest = l := by
  induction l with
  | nil =>
    intro b pre sep rest h
    exact Option.noConfusion h
  | cons c cs ih =>
    intro b pre sep rest h
    dsimp only [findNextHeader] at h
    split at h
    · rename_i sep0 rest0 heq
      injection h with h
      injection h with h1 h
      injection h with h2 h3
      subst h1
      subst h2
      subst h3
      rw [List.nil_append]
      split at heq
      · exact matchHeader_eq heq
      · exact Option.noConfusion heq
    · split at h
      · rename_i pre0 sep0 rest0 heq2
        injection h with h
        injection h with h1 h
        injection h with h2 h3
        subst h1
        subst h2
        subst h3
        simp only [List.cons_append]
        rw [ih (c = '\n') pre0 sep0 rest0 heq2]
      · exact Option.noConfusion h

theorem mdSplitAux_join : ∀ (fuel : Nat) (l : List Char) (b : Bool),
    joinChars (mdSplitAux fuel l b) = l := by
  intro fuel
  induction fuel with
  | zero =>
    intro l b
    show joinChars [⟨l⟩] = l
    simp [joinChars]
  | succ n ih =>
    intro l b
    dsimp only [mdSplitAux]
    split
    · simp [joinChars]
    · rename_i pre sep rest heq
      show joinChars (⟨pre⟩ :: ⟨sep⟩ :: mdSplitAux n rest false) = l
      have ih2 := ih rest false
      simp only [joinChars, List.flatMap_cons] at ih2 ⊢
      rw [ih2]
      show pre ++ (sep ++ rest) = l
      rw [← List.append_assoc]
      exact findNextHeader_eq l b pre sep rest heq

theorem splitSectionsLoop_sub (tc : String → Nat) (mt : Nat) :
    ∀ (pieces : List String) (cur : String) (chunks : List String),
      ∀ c ∈ splitSectionsLoop tc mt pieces cur chunks,
        c ∈ chunks ∨ List.Sublist c.data (cur.data ++ joinChars pieces) := by
  intro pieces
  induction pieces with
  | nil =>
    intro cur chunks c hc
    dsimp only [splitSectionsLoop] at hc
    split at hc
    · exact Or.inl hc
    · rcases List.mem_append.mp hc with h | h
      · exact Or.inl h
      · refine Or.inr ?_
        rw [List.mem_singleton.mp h]
        show List.Sublist cur.data (cur.data ++ [])
        rw [List.append_nil]
  | cons sec rest ih =>
    intro cur chunks c hc
    have hjoin : joinChars (sec :: rest) = sec.data ++ joinChars rest := rfl
    dsimp only [splitSectionsLoop] at hc
    split_ifs at hc with h1 h2 hcur
    · rcases ih cur chunks c hc with h | h
      · exact Or.inl h
      · refine Or.inr ?_
        rw [hjoin]
        exact h.trans ((List.sublist_append_right sec.data (joinChars rest)).append_left
          cur.data)
    · rcases ih sec chunks c hc with h | h
      · exact Or.inl h
      · refine Or.inr ?_
        rw [hjoin]
        exact h.trans (List.sublist_append_right cur.data _)
    · rcases ih sec (chunks ++ [cur]) c hc with h | h
      · rcases List.mem_append.mp h with h | h
        · exact Or.inl h
        · refine Or.inr ?_
          rw [List.mem_singleton.mp h]
          exact List.sublist_append_left cur.data _
      · refine Or.inr ?_
        rw [hjoin]
        exact h.trans (List.sublist_append_right cur.data _)
    · rcases ih (cur ++ sec) chunks c hc with h | h
      · exact Or.inl h
      · refine Or.inr ?_
        rw [hjoin, ← List.append_assoc, ← String.data_append]
        exact h

theorem splitBySections_sub (tc : String → Nat) (content : String) (mt : Nat) :
    ∀ c ∈ splitBySections tc content mt, List.Sublist c.data content.data := by
  intro c hc
  dsimp only [splitBySections] at hc
  split at hc
  · rw [List.mem_singleton.mp hc]
  · rcases splitSectionsLoop_sub tc mt (mdSplit content) "" [] c hc with h | h
    · exact absurd h (List.not_mem_nil c)
    · have he : ("" : String).data ++ joinChars (mdSplit content) = content.data := by
        show [] ++ joinChars (mdSplit content) = content.data
        rw [List.nil_append]
        exact mdSplitAux_join _ _ _
      rw [he] at h
      exact h

theorem snd_mem_of_mem_enumFrom {α : Type} : ∀ (l : List α) (n : Nat) (p : Nat × α),
    p ∈ List.enumFrom n l → p.2 ∈ l := by
  intro l
  induction l with
  | nil =>
    intro n p h
    exact absurd h (List.not_mem_nil p)
  | cons a t ih =>
    intro n p h
    rw [List.enumFrom_cons] at h
    rcases List.mem_cons.mp h with h | h
    · rw [h]
      exact List.mem_cons_self a t
    · exact List.mem_cons_of_mem a (ih (n + 1) p h)

theorem buildPageChunks_sub (tc : String → Nat) (th : Nat) :
    ∀ (slices : List (List Char × Nat)) (acc : List Chunk),
      ∀ c ∈ buildPageChunks tc th slices acc,
        c ∈ acc ∨ ∃ s ∈ slices, List.Sublist c.content.data s.1 := by
  intro slices
  induction slices with
  | nil =>
    intro acc c hc
    exact Or.inl hc
  | cons s rest ih =>
    intro acc c hc
    obtain ⟨slice, num⟩ := s
    dsimp only [buildPageChunks] at hc
    rcases ih _ c hc with h | ⟨s', hs', hsub⟩
    · by_cases hbig : th < tc ⟨slice⟩
      · rw [if_pos hbig] at h
        rcases List.mem_append.mp h with h | h
        · exact Or.inl h
        · obtain ⟨pr, hpr, hfc⟩ := List.mem_map.mp h
          refine Or.inr ⟨(slice, num), List.mem_cons_self _ _, ?_⟩
          rw [← hfc]
          exact splitBySections_sub tc ⟨slice⟩ th pr.2
            (snd_mem_of_mem_enumFrom _ 0 pr hpr)
      · rw [if_neg hbig] at h
        rcases List.mem_append.mp h with h | h
        · exact Or.inl h
        · refine Or.inr ⟨(slice, num), List.mem_cons_self _ _, ?_⟩
          rw [List.mem_singleton.mp h]
    · exact Or.inr ⟨s', List.mem_cons_of_mem _ hs', hsub⟩

theorem pageSlices_mem (cs : List Char) :
    ∀ (markers : List (Nat × Nat)) (sl : List Char × Nat), sl ∈ pageSlices cs markers →
      ∃ pm ∈ markers, List.Sublist sl.1 (cs.drop pm.1) := by
  intro markers
  induction markers with
  | nil =>
    intro sl h
    exact absurd h (List.not_mem_nil sl)
  | cons m rest ih =>
    intro sl h
    obtain ⟨st, num⟩ := m
    dsimp only [pageSlices] at h
    rcases List.mem_cons.mp h with h | h
    · refine ⟨(st, num), List.mem_cons_self _ _, ?_⟩
      rw [h]
      exact List.take_sublist _ _
    · obtain ⟨pm, hpm, hsub⟩ := ih sl h
      exact ⟨pm, List.mem_cons_of_mem _ hpm, hsub⟩

theorem findMarkersAux_ge : ∀ (fuel : Nat) (l : List Char) (pos : Nat),
    ∀ x ∈ findMarkersAux fuel l pos, pos ≤ x.1 := by
  intro fuel
  induction fuel with
  | zero =>
    intro l pos x hx
    exact absurd hx (List.not_mem_nil x)
  | succ n ih =>
    intro l pos x hx
    cases l with
    | nil => exact absurd hx (List.not_mem_nil x)
    | cons c cs =>
      dsimp only [findMarkersAux] at hx
      split at hx
      · split at hx
        · rename_i len num heq
          rcases List.mem_cons.mp hx with h | h
          · rw [h]
          · have := ih _ _ x h
            omega
        · split at hx
          · split at hx
            · rename_i len num heq
              rcases List.mem_cons.mp hx with h | h
              · rw [h]
              · have := ih _ _ x h
                omega
            · have := ih _ _ x hx
              omega
          · have := ih _ _ x hx
            omega
      · split at hx
        · split at hx
          · rename_i len num heq
            rcases List.mem_cons.mp hx with h | h
            · rw [h]
            · have := ih _ _ x h
              omega
          · have := ih _ _ x hx
            omega
        · have := ih _ _ x hx
          omega

theorem findMarkersAux_head_le : ∀ (fuel : Nat) (l : List Char) (pos p n : Nat)
    (ms : List (Nat × Nat)), findMarkersAux fuel l pos = (p, n) :: ms →
    ∀ x ∈ ms, p ≤ x.1 := by
  intro fuel
  induction fuel with
  | zero =>
    intro l pos p n ms h
    dsimp only [findMarkersAux] at h
    exact List.noConfusion h
  | succ fl ih =>
    intro l pos p n ms h x hx
    cases l with
    | nil =>
      dsimp only [findMarkersAux] at h
      exact List.noConfusion h
    | cons c cs =>
      dsimp only [findMarkersAux] at h
      split at h
      · split at h
        · rename_i len num heq
          injection h with h1 h2
          injection h1 with hp hn
          rw [← h2] at hx
          have := findMarkersAux_ge fl _ _ x hx
          omega
        · split at h
          · split at h
            · rename_i len num heq
              injection h with h1 h2
              injection h1 with hp hn
              rw [← h2] at hx
              have := findMarkersAux_ge fl _ _ x hx
              omega
            · exact ih cs (pos + 1) p n ms h x hx
          · exact ih cs (pos + 1) p n ms h x hx
      · split at h
        · split at h
          · rename_i len num heq
            injection h with h1 h2
            injection h1 with hp hn
            rw [← h2] at hx
            have := findMarkersAux_ge fl _ _ x hx
            omega
          · exact ih cs (pos + 1) p n ms h x hx
        · exact ih cs (pos + 1) p n ms h x hx

/-- A document whose single oversized page gets sub-split at a markdown
header: the second chunk starts at the header, not at a page marker. -/
def c10doc : String := "--- Page 1 ---\nAAAA\n## H\nBBBB"

/-- A document with leading text before its only page marker. -/
def c10doc2 : String := "xx\n--- Page 2 ---\nAAAA"

/-- C10 as stated is false: for this over-threshold content with one page
marker, the chunker sub-splits the oversized page at a markdown section
header, so the second returned chunk does not start at any page-marker
position. -/
theorem chunk_marker_positions_cex :
    DEFAULT_CONTEXT_WINDOW / 16000 / 2 < tcLen4 c10doc ∧ findPageMarkers c10doc ≠ [] ∧
    ¬ ∀ c ∈ chunkContent tcLen4 c10doc (DEFAULT_CONTEXT_WINDOW / 16000),
        ∃ pm ∈ findPageMarkers c10doc,
          List.isPrefixOf c.content.data (c10doc.data.drop pm.1) = true := by
  decide

/-- C10 (amended): when the token estimate exceeds the threshold and the
content has at least one page marker, every returned chunk is drawn from
the suffix of the content that starts at the first page marker (each
chunk's character list is a sublist of that suffix), so text preceding the
first page marker appears in no chunk; chunks themselves need not start at
a marker because oversized pages are sub-split at section headers. -/
theorem chunk_page_branch_suffix (tc : String → Nat) (content : String) (cw : Nat)
    (p n : Nat) (ms : List (Nat × Nat))
    (hth : cw / 2 < tc content)
    (hm : findPageMarkers content = (p, n) :: ms) :
    ∀ c ∈ chunkContent tc content cw,
      List.Sublist c.content.data (content.data.drop p) := by
  intro c hc
  dsimp only [chunkContent] at hc
  rw [if_neg (by omega)] at hc
  split at hc
  · rename_i heq
    rw [hm] at heq
    exact List.noConfusion heq
  · rename_i m ms' heq
    rw [hm] at heq
    injection heq with h1 h2
    subst h1
    subst h2
    rcases buildPageChunks_sub tc (cw / 2) _ [] c hc with h | ⟨s, hs, hsub⟩
    · exact absurd h (List.not_mem_nil c)
    · obtain ⟨pm, hpm, hsub2⟩ := pageSlices_mem content.data _ s hs
      have hge : p ≤ pm.1 := by
        rcases List.mem_cons.mp hpm with h | h
        · rw [h]
        · exact findMarkersAux_head_le _ _ _ _ _ _ hm pm h
      have hdrop : List.Sublist (content.data.drop pm.1) (content.data.drop p) := by
        have he : content.data.drop pm.1 = (content.data.drop p).drop (pm.1 - p) := by
          rw [List.drop_drop]
          congr 1
          omega
        rw [he]
        exact List.drop_sublist _ _
      exact hsub.trans (hsub2.trans hdrop)

/-- Witness for the amended C10 theorem: the single chunk of `c10doc2`
(at context window 8) is the page slice starting at the first marker
(position 2, the newline before the dashes), a sublist of the suffix. -/
theorem chunk_page_branch_suffix_witness :
    List.Sublist (Chunk.content ⟨"\n--- Page 2 ---\nAAAA", 2, 0⟩).data
      (c10doc2.data.drop 2) :=
  chunk_page_branch_suffix tcLen4 c10doc2 8 2 2 [] (by decide) (by decide)
    ⟨"\n--- Page 2 ---\nAAAA", 2, 0⟩ (by decide)


end AcmAI
